import Mathlib

/-!
# Wallet scorer: a shallow embedding of `src/index.js`

The scoring core of the Telegram wallet scorer (`classifyBefore`, `classifyAfter`,
`scoreBuy`, `scoreEntry`, the per-token loop of `scoreWallet`, `parseCommand`,
`formatMultiplier`) is translated function by function.

## Numbers

A JavaScript number is an IEEE 754 binary64 value.  `JSNum` has the finite values (a
rational, `fin 0` being the positive zero), the negative zero, the two infinities and
NaN.  The four arithmetic operators compute the exact result and round it to the nearest
binary64 value, ties to the even significand (`roundDouble`): 53 significant bits, a
least exponent of `-1074`, overflow to an infinity from `2^1024` on, underflow to a zero
of the sign of the exact result.  Zeros and infinities carry their sign through the
operators as in the standard, and every comparison with NaN is false.  Comparisons,
`Math.abs`, `Math.max`, `Math.min` and `toFixed` are exact on their arguments.
-/

namespace WalletScorer

/-! ## JavaScript numbers -/

/-- A JavaScript number: a finite value (`fin 0` is `+0`), the negative zero, one of the
two infinities, or NaN. -/
inductive JSNum where
  | fin (q : ℚ)
  | negZero
  | posInf
  | negInf
  | nan
  deriving DecidableEq

/-- Rounding to the nearest integer, a tie going to the even one. -/
def roundHalfEven (x : ℚ) : Int :=
  if x - ⌊x⌋ < 1 / 2 then ⌊x⌋
  else if 1 / 2 < x - ⌊x⌋ then ⌊x⌋ + 1
  else if ⌊x⌋ % 2 = 0 then ⌊x⌋
  else ⌊x⌋ + 1

/-- The exponent of the unit in the last place of binary64 at the magnitude `q > 0`:
52 below the binary exponent of `q`, and never below `-1074` (subnormal range). -/
def ulpExponent (q : ℚ) : Int := max (Int.log 2 q - 52) (-1074)

/-- The magnitude `q > 0` rounded to a multiple of its unit in the last place. -/
def roundMagnitude (q : ℚ) : ℚ :=
  (roundHalfEven (q / 2 ^ ulpExponent q) : ℚ) * 2 ^ ulpExponent q

/-- The binary64 value of an exact result `q`: round to nearest, ties to even; an
infinity when the rounded magnitude reaches `2^1024`, a zero of the sign of `q` when it
rounds to nothing.  An exact zero is returned as `+0`; the operators decide the sign of
an exact zero themselves. -/
def roundDouble (q : ℚ) : JSNum :=
  if q = 0 then JSNum.fin 0
  else if 2 ^ 1024 ≤ roundMagnitude |q| then (if 0 < q then JSNum.posInf else JSNum.negInf)
  else if roundMagnitude |q| = 0 then (if 0 < q then JSNum.fin 0 else JSNum.negZero)
  else JSNum.fin (if 0 < q then roundMagnitude |q| else -roundMagnitude |q|)

namespace JSNum

/-- The test `Number.isNaN`. -/
def isNaN : JSNum → Bool
  | nan => true
  | _ => false

/-- The test `Number.isFinite`. -/
def isFinite : JSNum → Bool
  | fin _ => true
  | negZero => true
  | _ => false

/-- Whether the number is one of the two infinities. -/
def isInfinite : JSNum → Bool
  | posInf => true
  | negInf => true
  | _ => false

/-- Whether the number is one of the two zeros. -/
def isZero : JSNum → Bool
  | fin q => decide (q = 0)
  | negZero => true
  | _ => false

/-- The sign bit: set for the negative numbers, `-0` and `-Infinity`. -/
def isNegative : JSNum → Bool
  | fin q => decide (q < 0)
  | negZero => true
  | negInf => true
  | _ => false

/-- The rational value of a finite number (`0` for both zeros and for the three special
values). -/
def toRat : JSNum → ℚ
  | fin q => q
  | _ => 0

/-- The zero of the given sign. -/
def signedZero (negative : Bool) : JSNum := if negative then negZero else fin 0

/-- The infinity of the given sign. -/
def signedInfinity (negative : Bool) : JSNum := if negative then negInf else posInf

/-- Unary minus. -/
def neg : JSNum → JSNum
  | fin q => if q = 0 then negZero else fin (-q)
  | negZero => fin 0
  | posInf => negInf
  | negInf => posInf
  | nan => nan

/-- The operator `+`.  `Infinity + -Infinity` is NaN; an exact zero sum is `-0` only
when both operands are `-0`. -/
def add (a b : JSNum) : JSNum :=
  if a.isNaN || b.isNaN then nan
  else if a.isInfinite then
    (if b.isInfinite && (a.isNegative != b.isNegative) then nan else a)
  else if b.isInfinite then b
  else if a.toRat + b.toRat = 0 then
    (if a.isNegative && a.isZero && b.isNegative && b.isZero then negZero else fin 0)
  else roundDouble (a.toRat + b.toRat)

/-- The operator `-`: `a - b` is `a + (-b)`. -/
def sub (a b : JSNum) : JSNum := add a (neg b)

/-- The operator `*`.  The sign of the result is the exclusive or of the signs;
`Infinity * 0` is NaN. -/
def mul (a b : JSNum) : JSNum :=
  if a.isNaN || b.isNaN then nan
  else if a.isInfinite || b.isInfinite then
    (if a.isZero || b.isZero then nan else signedInfinity (a.isNegative != b.isNegative))
  else if a.toRat * b.toRat = 0 then signedZero (a.isNegative != b.isNegative)
  else roundDouble (a.toRat * b.toRat)

/-- The operator `/`.  The sign of the result is the exclusive or of the signs; a
non-zero finite value divided by a zero is an infinity, `0 / 0` and
`Infinity / Infinity` are NaN. -/
def div (a b : JSNum) : JSNum :=
  if a.isNaN || b.isNaN then nan
  else if a.isInfinite then
    (if b.isInfinite then nan else signedInfinity (a.isNegative != b.isNegative))
  else if b.isInfinite then signedZero (a.isNegative != b.isNegative)
  else if b.isZero then
    (if a.isZero then nan else signedInfinity (a.isNegative != b.isNegative))
  else if a.isZero then signedZero (a.isNegative != b.isNegative)
  else roundDouble (a.toRat / b.toRat)

/-- The operator `<`: false as soon as one side is NaN; the two zeros are equal. -/
def lt (a b : JSNum) : Bool :=
  if a.isNaN || b.isNaN then false
  else if a.isInfinite then (a.isNegative && !(b.isInfinite && b.isNegative))
  else if b.isInfinite then !b.isNegative
  else decide (a.toRat < b.toRat)

/-- The operator `>`. -/
def gt (a b : JSNum) : Bool := lt b a

/-- The operator `<=`: false as soon as one side is NaN; the two zeros are equal. -/
def le (a b : JSNum) : Bool :=
  if a.isNaN || b.isNaN then false
  else if a.isInfinite then (a.isNegative || (b.isInfinite && !b.isNegative))
  else if b.isInfinite then !b.isNegative
  else decide (a.toRat ≤ b.toRat)

/-- The operator `>=`. -/
def ge (a b : JSNum) : Bool := le b a

/-- The function `Math.abs`. -/
def abs : JSNum → JSNum
  | fin q => fin |q|
  | negZero => fin 0
  | posInf => posInf
  | negInf => posInf
  | nan => nan

/-- The idiom `x || 0` on a number: NaN and both zeros are falsy and give `+0`. -/
def orZero : JSNum → JSNum
  | nan => fin 0
  | negZero => fin 0
  | x => x

/-- The greater of two numbers that are not NaN, `+0` counting as greater than `-0`. -/
def maxTwo (a b : JSNum) : JSNum :=
  if lt a b then b
  else if lt b a then a
  else if a.isNegative then b
  else a

/-- The lesser of two numbers that are not NaN, `-0` counting as less than `+0`. -/
def minTwo (a b : JSNum) : JSNum :=
  if lt a b then a
  else if lt b a then b
  else if a.isNegative then a
  else b

end JSNum

/-- The function `Math.max(...xs)`: `-Infinity` on no argument, NaN as soon as one
argument is NaN. -/
def mathMax : List JSNum → JSNum
  | [] => JSNum.negInf
  | x :: xs =>
      if x.isNaN || (mathMax xs).isNaN then JSNum.nan
      else JSNum.maxTwo x (mathMax xs)

/-- The function `Math.min(...xs)`: `+Infinity` on no argument, NaN as soon as one
argument is NaN. -/
def mathMin : List JSNum → JSNum
  | [] => JSNum.posInf
  | x :: xs =>
      if x.isNaN || (mathMin xs).isNaN then JSNum.nan
      else JSNum.minTwo x (mathMin xs)

/-! ## Price-context labels and the relative scorer -/

/-- The labels the two classifiers return.  `classifyBefore` returns one of
`pumped_to`, `rose_to`, `dumped_to`, `fell_to`, `flat`; `classifyAfter` returns one of
`moon`, `pump`, `dump`, `dip`, `flat`.  `scoreBuy` is only ever called on a pair of
classifier results, so its two arguments range over these nine labels. -/
inductive Label where
  | pumped_to
  | rose_to
  | dumped_to
  | fell_to
  | flat
  | moon
  | pump
  | dump
  | dip
  deriving DecidableEq

/-- The constant `100` of the percentage formulas. -/
def hundred : JSNum := JSNum.fin 100

/-- The function `classifyBefore(entryPrice, beforeMin, beforeMax)`. -/
def classifyBefore (entryPrice beforeMin beforeMax : JSNum) : Label :=
  let riseToEntry := JSNum.mul (JSNum.div (JSNum.sub entryPrice beforeMin) beforeMin) hundred
  let fallToEntry := JSNum.mul (JSNum.div (JSNum.sub beforeMax entryPrice) beforeMax) hundred
  if JSNum.gt riseToEntry (JSNum.fin 25) && JSNum.gt riseToEntry fallToEntry then Label.pumped_to
  else if JSNum.gt riseToEntry (JSNum.fin 10) && JSNum.gt riseToEntry fallToEntry then Label.rose_to
  else if JSNum.gt fallToEntry (JSNum.fin 25) && JSNum.gt fallToEntry riseToEntry then Label.dumped_to
  else if JSNum.gt fallToEntry (JSNum.fin 10) && JSNum.gt fallToEntry riseToEntry then Label.fell_to
  else Label.flat

/-- The function `classifyAfter(entryPrice, afterMin, afterMax)`. -/
def classifyAfter (entryPrice afterMin afterMax : JSNum) : Label :=
  let pctUp := JSNum.mul (JSNum.div (JSNum.sub afterMax entryPrice) entryPrice) hundred
  let pctDown := JSNum.mul (JSNum.div (JSNum.sub entryPrice afterMin) entryPrice) hundred
  if JSNum.gt pctUp (JSNum.fin 25) && JSNum.gt pctUp pctDown then Label.moon
  else if JSNum.gt pctUp (JSNum.fin 10) && JSNum.gt pctUp pctDown then Label.pump
  else if JSNum.gt pctDown (JSNum.fin 25) && JSNum.gt pctDown pctUp then Label.dump
  else if JSNum.gt pctDown (JSNum.fin 10) && JSNum.gt pctDown pctUp then Label.dip
  else Label.flat

/-- One row of the matrix of `scoreBuy`: the own properties `moon`, `pump`, `flat`,
`dip`, `dump` of a row object, given in that order. -/
def matrixRow (moon pump flat dip dump : Int) : Label → Option Int
  | Label.moon => some moon
  | Label.pump => some pump
  | Label.flat => some flat
  | Label.dip => some dip
  | Label.dump => some dump
  | _ => none

/-- The object `matrix` of `scoreBuy`: its five rows, keyed by the before label. -/
def matrix : Label → Option (Label → Option Int)
  | Label.dumped_to => some (matrixRow 2 1 0 (-1) (-2))
  | Label.fell_to => some (matrixRow 2 1 0 (-1) (-2))
  | Label.flat => some (matrixRow 2 1 0 (-1) (-2))
  | Label.rose_to => some (matrixRow 1 0 (-1) (-2) (-2))
  | Label.pumped_to => some (matrixRow 0 (-1) (-1) (-2) (-2))
  | _ => none

/-- The function `scoreBuy(beforeCtx, afterCtx)`: `matrix[beforeCtx]?.[afterCtx] ?? 0`. -/
def scoreBuy (beforeCtx afterCtx : Label) : Int :=
  match matrix beforeCtx with
  | none => 0
  | some row =>
      match row afterCtx with
      | none => 0
      | some v => v

/-! ## Candles and `scoreEntry` -/

/-- A candle as built by `fetchCandles`: the timestamp is an integer number of
milliseconds (`parseInt`), the four prices are numbers (`parseFloat`). -/
structure Candle where
  timestamp : Int
  open_ : JSNum
  high : JSNum
  low : JSNum
  close : JSNum
  deriving DecidableEq

/-- The constant `LOOKBACK_MS`: eight hours, in milliseconds. -/
def LOOKBACK_MS : Int := 8 * 60 * 60 * 1000

/-- The constant `LOOKFORWARD_MS`: twenty-four hours, in milliseconds. -/
def LOOKFORWARD_MS : Int := 24 * 60 * 60 * 1000

/-- The array `beforeCandles` of `scoreEntry`. -/
def beforeCandles (entryTime : Int) (candles : List Candle) : List Candle :=
  candles.filter (fun c =>
    decide (c.timestamp < entryTime) && decide (c.timestamp ≥ entryTime - LOOKBACK_MS))

/-- The array `afterCandles` of `scoreEntry`. -/
def afterCandles (entryTime : Int) (candles : List Candle) : List Candle :=
  candles.filter (fun c =>
    decide (c.timestamp > entryTime) && decide (c.timestamp ≤ entryTime + LOOKFORWARD_MS))

/-- The value `beforeCtx` computed inside `scoreEntry`. -/
def beforeCtx (entryPrice : JSNum) (entryTime : Int) (candles : List Candle) : Label :=
  let bc := beforeCandles entryTime candles
  let beforeMin := if bc.length > 0 then mathMin (bc.map (fun c => c.low)) else entryPrice
  let beforeMax := if bc.length > 0 then mathMax (bc.map (fun c => c.high)) else entryPrice
  classifyBefore entryPrice beforeMin beforeMax

/-- The value `afterCtx` computed inside `scoreEntry`. -/
def afterCtx (entryPrice : JSNum) (entryTime : Int) (candles : List Candle) : Label :=
  let ac := afterCandles entryTime candles
  let afterMin := if ac.length > 0 then mathMin (ac.map (fun c => c.low)) else entryPrice
  let afterMax := if ac.length > 0 then mathMax (ac.map (fun c => c.high)) else entryPrice
  classifyAfter entryPrice afterMin afterMax

/-- The function `scoreEntry(entryPrice, entryTime, candles)`. -/
def scoreEntry (entryPrice : JSNum) (entryTime : Int) (candles : List Candle) : Int :=
  scoreBuy (beforeCtx entryPrice entryTime candles) (afterCtx entryPrice entryTime candles)

/-! ## The per-token evaluation of `scoreWallet` -/

/-- One record of the trade history, with its fields already read: `latestTime` is
`parseInt(t.latestTime, 10)` when the field is present and parses, the two counts are the
integers `totalTxBuy || 0` and `totalTxSell || 0`, and each numeric field holds the
result of `parseFloat` on it (NaN when the field is missing or does not parse). -/
structure TradeRecord where
  tokenContractAddress : String
  tokenSymbol : String
  latestTime : Option Int
  totalTxBuy : Int
  totalTxSell : Int
  buyAvgPrice : JSNum
  buyVolume : JSNum
  sellVolume : JSNum
  balance : JSNum
  balanceUsd : JSNum
  realizedPnl : JSNum
  unrealizedPnl : JSNum
  totalPnl : JSNum

/-- The expression `candles.sort((a, b) => b.timestamp - a.timestamp)`: a stable sort
of the candles by descending timestamp.  The sort is in place, so every later use of
`candles` in the same loop iteration sees this order. -/
def sortCandles (candles : List Candle) : List Candle :=
  candles.insertionSort (fun a b => b.timestamp ≤ a.timestamp)

/-- The multiplier of a token: `buyVolume > 0 ? (sellVolume + balanceUsd) / buyVolume : 0`,
each volume being `parseFloat(...) || 0`. -/
def multiplierOf (token : TradeRecord) : JSNum :=
  let buyVolume := JSNum.orZero token.buyVolume
  let sellVolume := JSNum.orZero token.sellVolume
  let balanceUsd := JSNum.orZero token.balanceUsd
  let totalReturned := JSNum.add sellVolume balanceUsd
  if JSNum.gt buyVolume (JSNum.fin 0) then JSNum.div totalReturned buyVolume else JSNum.fin 0

/-- The rug check of `scoreWallet`: the flag `isRugged` for a candle series. -/
def isRuggedOf (candles : List Candle) : Bool :=
  match sortCandles candles with
  | [] => false
  | latest :: rest =>
      let currentPrice := latest.close
      let peakPrice := mathMax ((latest :: rest).map (fun c => c.high))
      if JSNum.gt peakPrice (JSNum.fin 0) then
        let rugPct := JSNum.mul (JSNum.div (JSNum.sub peakPrice currentPrice) peakPrice) hundred
        JSNum.ge rugPct (JSNum.fin 90)
      else false

/-- The callback of the `reduce` that picks the closest candle. -/
def closerCandle (buyAvgPrice : JSNum) (best c : Candle) : Candle :=
  if JSNum.lt (JSNum.abs (JSNum.sub c.close buyAvgPrice))
      (JSNum.abs (JSNum.sub best.close buyAvgPrice)) then c else best

/-- The expression `candles.reduce((best, c) => ...)` without initial value, on the
array as it stands at that point (already sorted by the rug check); `none` stands for
the empty array, on which the code never evaluates the expression. -/
def closestCandle (buyAvgPrice : JSNum) (candles : List Candle) : Option Candle :=
  match sortCandles candles with
  | [] => none
  | first :: rest => some (rest.foldl (closerCandle buyAvgPrice) first)

/-- The guard `candles.length > 0 && buyCount > 0 && buyAvgPrice > 0` of the entry
scoring. -/
def scored (token : TradeRecord) (candles : List Candle) : Bool :=
  decide (candles.length > 0) && decide (token.totalTxBuy > 0) &&
    JSNum.gt (JSNum.orZero token.buyAvgPrice) (JSNum.fin 0)

/-- The entry time handed to `scoreEntry`: the timestamp of the closest candle. -/
def entryTimeOf (token : TradeRecord) (candles : List Candle) : Option Int :=
  (closestCandle (JSNum.orZero token.buyAvgPrice) candles).map (fun c => c.timestamp)

/-- The per-token `score` of `scoreWallet`: `0` unless the guard holds, and then the
result of `scoreEntry` at the timestamp of the closest candle. -/
def tokenScore (token : TradeRecord) (candles : List Candle) : Int :=
  if scored token candles then
    match entryTimeOf token candles with
    | some entryTime =>
        scoreEntry (JSNum.orZero token.buyAvgPrice) entryTime (sortCandles candles)
    | none => 0
  else 0

/-! ## The wallet aggregation of `scoreWallet` -/

/-- One answer of the trade-history endpoint: the fields `code`, `data.tokenList`
and `data.hasNext` (the cursor `data.offset` only shapes the next request). -/
structure HistoryPage where
  code : Int
  tokenList : List TradeRecord
  hasNext : Bool

/-- The `while` loop of `fetchTradingHistory`, run against the successive answers of
the endpoint; `allTokens` is the accumulator. -/
def fetchLoop (limit : Nat) : List HistoryPage → List TradeRecord → List TradeRecord
  | [], allTokens => allTokens
  | page :: later, allTokens =>
      if allTokens.length < limit then
        if page.code ≠ 0 then allTokens
        else
          let pushed := allTokens ++ page.tokenList
          if !page.hasNext || decide (pushed.length ≥ limit) then pushed
          else fetchLoop limit later pushed
      else allTokens

/-- The function `fetchTradingHistory(chainId, walletAddress, limit)`, as a function
of the answers the endpoint gives: the accumulated list, cut by `slice(0, limit)`. -/
def fetchTradingHistory (pages : List HistoryPage) (limit : Nat) : List TradeRecord :=
  (fetchLoop limit pages []).take limit

/-- The object `results.stats.distribution`. -/
structure Distribution where
  excellent : Nat
  good : Nat
  neutral : Nat
  poor : Nat
  terrible : Nat

/-- The object `results.stats`. -/
structure Stats where
  totalTokens : Nat
  totalBuys : Nat
  avgScore : JSNum
  distribution : Distribution
  realizedPnl : JSNum
  unrealizedPnl : JSNum
  totalBagsValue : JSNum
  rugged : Nat
  held : Nat

/-- One entry of `results.tokens`. -/
structure TokenResult where
  symbol : String
  address : String
  buyCount : Int
  sellCount : Int
  score : Int
  pnl : JSNum
  balanceUsd : JSNum
  multiplier : JSNum
  isRugged : Bool
  holding : Bool

/-- The part of `results` the scoring loop writes (`stats` and `tokens`) together with
the local array `allScores`. -/
structure Results where
  stats : Stats
  tokens : List TokenResult
  allScores : List Int

/-- The initial `results` object and the empty `allScores`, with
`stats.totalTokens = recentTokens.length` already assigned. -/
def initialResults (totalTokens : Nat) : Results :=
  { stats :=
      { totalTokens := totalTokens
        totalBuys := 0
        avgScore := JSNum.fin 0
        distribution := { excellent := 0, good := 0, neutral := 0, poor := 0, terrible := 0 }
        realizedPnl := JSNum.fin 0
        unrealizedPnl := JSNum.fin 0
        totalBagsValue := JSNum.fin 0
        rugged := 0
        held := 0 }
    tokens := []
    allScores := [] }

/-- The `if`/`else if` chain that counts a score into the distribution. -/
def countDistribution (d : Distribution) (score : Int) : Distribution :=
  if score = 2 then { d with excellent := d.excellent + 1 }
  else if score = 1 then { d with good := d.good + 1 }
  else if score = 0 then { d with neutral := d.neutral + 1 }
  else if score = -1 then { d with poor := d.poor + 1 }
  else if score = -2 then { d with terrible := d.terrible + 1 }
  else d

/-- The entry pushed to `results.tokens` for a token with the given candles. -/
def tokenResult (token : TradeRecord) (candles : List Candle) : TokenResult :=
  { symbol := if token.tokenSymbol = "" then "UNKNOWN" else token.tokenSymbol
    address := token.tokenContractAddress
    buyCount := token.totalTxBuy
    sellCount := token.totalTxSell
    score := tokenScore token candles
    pnl := JSNum.orZero token.totalPnl
    balanceUsd := JSNum.orZero token.balanceUsd
    multiplier := multiplierOf token
    isRugged := isRuggedOf candles
    holding := JSNum.gt (JSNum.orZero token.balance) (JSNum.fin 0) }

/-- One iteration of the loop `for (const token of recentTokens.slice(0, maxTokens))`;
`fetchCandles` gives the candle series the endpoint returns for a token address. -/
def scoreToken (fetchCandles : String → List Candle) (results : Results)
    (token : TradeRecord) : Results :=
  let candles := fetchCandles token.tokenContractAddress
  let buyCount := token.totalTxBuy
  let balanceUsd := JSNum.orZero token.balanceUsd
  let holding := JSNum.gt (JSNum.orZero token.balance) (JSNum.fin 0)
  let isRugged := isRuggedOf candles
  let score := tokenScore token candles
  let pushed :=
    if scored token candles then results.allScores ++ List.replicate buyCount.toNat score
    else results.allScores
  let st := results.stats
  { stats :=
      { st with
        realizedPnl := JSNum.add st.realizedPnl (JSNum.orZero token.realizedPnl)
        unrealizedPnl := JSNum.add st.unrealizedPnl (JSNum.orZero token.unrealizedPnl)
        totalBagsValue :=
          if holding then JSNum.add st.totalBagsValue balanceUsd else st.totalBagsValue
        rugged := if isRugged then st.rugged + 1 else st.rugged
        held := if holding then st.held + 1 else st.held
        distribution := countDistribution st.distribution score }
    tokens := results.tokens ++ [tokenResult token candles]
    allScores := pushed }

/-- The filter to the seven-day window: `t.latestTime && parseInt(t.latestTime, 10) >=
sevenDaysAgo`, with `sevenDaysAgo = now - 7 * 24 * 60 * 60 * 1000`. -/
def recentTokens (now : Int) (tokens : List TradeRecord) : List TradeRecord :=
  tokens.filter (fun t =>
    match t.latestTime with
    | some latest => decide (latest ≥ now - 7 * 24 * 60 * 60 * 1000)
    | none => false)

/-- The tokens the loop of `scoreWallet` evaluates: `recentTokens.slice(0, maxTokens)`
of the fetched history. -/
def evaluatedTokens (pages : List HistoryPage) (now : Int) (maxTokens : Nat) :
    List TradeRecord :=
  (recentTokens now (fetchTradingHistory pages maxTokens)).take maxTokens

/-- The sum `allScores.reduce((a, b) => a + b, 0)`. -/
def sumScores (allScores : List Int) : Int :=
  allScores.foldl (fun a b => a + b) 0

/-- The function `scoreWallet(walletAddress, chainId, maxTokens)`, as a function of
what the outside world supplies: the answers `pages` of the trade-history endpoint, the
clock `now`, and the candle series `fetchCandles` of each token address.  The wallet
profile and developer lookups only fill `results.kol` and `results.dev` and are left
out, as are the pacing delays. -/
def scoreWallet (pages : List HistoryPage) (now : Int)
    (fetchCandles : String → List Candle) (maxTokens : Nat) : Results :=
  let tokens := fetchTradingHistory pages maxTokens
  let recent := recentTokens now tokens
  let looped := (recent.take maxTokens).foldl (scoreToken fetchCandles)
    (initialResults recent.length)
  let allScores := looped.allScores
  { looped with
    stats :=
      { looped.stats with
        totalBuys := allScores.length
        avgScore :=
          if allScores.length > 0 then
            JSNum.div (JSNum.fin (sumScores allScores)) (JSNum.fin allScores.length)
          else JSNum.fin 0 } }

/-! ## The command parser -/

/-- The own properties of the object `CHAIN_MAP`. -/
def CHAIN_MAP : List (String × Nat) :=
  [("sol", 501), ("solana", 501), ("eth", 1), ("ethereum", 1), ("bsc", 56), ("bnb", 56),
   ("base", 8453)]

/-- The property names every object literal inherits from `Object.prototype`. -/
def objectPrototypeKeys : List String :=
  ["constructor", "__proto__", "__defineGetter__", "__defineSetter__", "__lookupGetter__",
   "__lookupSetter__", "hasOwnProperty", "isPrototypeOf", "propertyIsEnumerable",
   "toLocaleString", "toString", "valueOf"]

/-- What a property read `CHAIN_MAP[key]` evaluates to when it is not `undefined`: the
number stored under an own key, or the member of `Object.prototype` inherited under one
of its names (a function or an object, never a number). -/
inductive ChainValue where
  | id (n : Nat)
  | inherited (key : String)
  deriving DecidableEq

/-- The property read `CHAIN_MAP[chainArg]`; `none` is `undefined`.  `CHAIN_MAP` is a
plain object literal, so a key that is not an own property is looked up on
`Object.prototype`. -/
def chainMapGet (chainArg : String) : Option ChainValue :=
  match CHAIN_MAP.lookup chainArg with
  | some n => some (ChainValue.id n)
  | none =>
      if chainArg ∈ objectPrototypeKeys then some (ChainValue.inherited chainArg) else none

/-- The test `!chainId` on the value read from `CHAIN_MAP`: `undefined` is falsy, and
so would be the number `0`; functions and objects are truthy. -/
def falsy : Option ChainValue → Bool
  | none => true
  | some (ChainValue.id n) => n == 0
  | some (ChainValue.inherited _) => false

/-- The class `\w` of a regular expression without the `u` flag. -/
def isWordChar (c : Char) : Bool := c.isAlphanum || c == '_'

/-- The class `[A-Za-z0-9]` (unchanged by the `i` flag). -/
def isAddressChar (c : Char) : Bool := c.isAlphanum

/-- The class `\s`: the white space and line terminator code points of the language. -/
def isSpaceChar (c : Char) : Bool :=
  c.toNat ∈ [9, 10, 11, 12, 13, 32, 160, 5760, 8232, 8233, 8239, 8287, 12288, 65279] ||
    (decide (8192 ≤ c.toNat) && decide (c.toNat ≤ 8202))

/-- The literal `/score` of both regular expressions. -/
def scoreLiteral : List Char := ['/', 's', 'c', 'o', 'r', 'e']

/-- The statement `text.replace(/^\/score(@\w+)?/, '/score')`: a leading `/score`,
with an `@` and the longest run of word characters after it when that run is not empty,
is replaced by `/score`; a text that does not start with `/score` is returned as is. -/
def stripBotName (text : List Char) : List Char :=
  if text.take 6 = scoreLiteral then
    match text.drop 6 with
    | '@' :: rest =>
        if (rest.takeWhile isWordChar).length > 0 then
          scoreLiteral ++ rest.dropWhile isWordChar
        else text
    | _ => text
  else text

/-- The statement `cleanText.match(/^\/score\s+([A-Za-z0-9]{32,44})\s*(\w+)?/i)`: the
two capture groups of the match, `none` when there is no match.  Every quantifier is
greedy and nothing after a quantified class can match a character of that class unless
the class is exhausted or its bound reached, so the first attempt of the matcher decides:
all the white space, then up to 44 address characters (at least 32), then all the white
space, then the longest run of word characters (group 2 is `undefined`, here `none`, when
that run is empty). -/
def matchScore (cleanText : List Char) : Option (List Char × Option (List Char)) :=
  if (cleanText.take 6).map Char.toLower = scoreLiteral then
    let afterCommand := cleanText.drop 6
    if (afterCommand.takeWhile isSpaceChar).length > 0 then
      let afterSpace := afterCommand.dropWhile isSpaceChar
      let run := (afterSpace.takeWhile isAddressChar).take 44
      if run.length ≥ 32 then
        let afterWallet := (afterSpace.drop run.length).dropWhile isSpaceChar
        let word := afterWallet.takeWhile isWordChar
        some (run, if word.length > 0 then some word else none)
      else none
    else none
  else none

/-- The object returned by a successful `parseCommand`. -/
structure ParsedCommand where
  wallet : String
  chainId : ChainValue
  deriving DecidableEq

/-- The function `parseCommand(text)`; `none` is `null`. -/
def parseCommand (text : String) : Option ParsedCommand :=
  match matchScore (stripBotName text.toList) with
  | none => none
  | some (wallet, chainWord) =>
      let chainArg := String.mk ((chainWord.getD ['s', 'o', 'l']).map Char.toLower)
      let chainId := chainMapGet chainArg
      match chainId with
      | none => none
      | some v => if falsy chainId then none else some { wallet := String.mk wallet, chainId := v }

/-! ## The multiplier formatter -/

/-- The digits of `toFixed` for the integer `n` and `f` fraction digits: the decimal
digits of `n`, padded with leading zeros to `f + 1` digits when `f` is not zero, with a
point before the last `f` digits. -/
def fixedDigits (n f : Nat) : String :=
  let m := Nat.toDigits 10 n
  if f = 0 then String.mk m
  else
    let padded := List.replicate (f + 1 - m.length) '0' ++ m
    String.mk (padded.take (padded.length - f) ++ '.' :: padded.drop (padded.length - f))

/-- The fixed-point notation of a non-negative `x` below `10^21` with `f` fraction
digits: the digits of the integer `n` for which `n / 10^f - x` is as close to zero as
possible, the larger `n` when there are two. -/
def fixedPoint (x : ℚ) (f : Nat) : String :=
  fixedDigits ⌊x * 10 ^ f + 1 / 2⌋.toNat f

/-- The method `x.toFixed(f)`, exact on the value of `x`.  NaN and the infinities give
their names, a negative number gives a minus sign followed by the notation of its
absolute value, and `-0` is rendered as `0`.  From `10^21`
on the method returns the general number-to-string conversion, which is outside the
model: `none`. -/
def toFixed (x : JSNum) (f : Nat) : Option String :=
  match x with
  | JSNum.nan => some "NaN"
  | JSNum.posInf => some "Infinity"
  | JSNum.negInf => some "-Infinity"
  | JSNum.negZero => some (fixedPoint 0 f)
  | JSNum.fin q =>
      if |q| ≥ 10 ^ 21 then none
      else some ((if q < 0 then "-" else "") ++ fixedPoint |q| f)

/-- The function `formatMultiplier(mult)`; `none` when a `toFixed` result is outside
the model. -/
def formatMultiplier (mult : JSNum) : Option String :=
  let mult := if JSNum.lt mult (JSNum.fin 0) then JSNum.fin 0 else mult
  if JSNum.lt mult (JSNum.fin 1) then
    let loss := JSNum.sub mult (JSNum.fin 1)
    (toFixed loss 2).map (fun s => s ++ "x")
  else if JSNum.ge mult (JSNum.fin 1000000) then
    (toFixed (JSNum.div mult (JSNum.fin 1000000)) 1).map (fun s => s ++ "Mx")
  else if JSNum.ge mult (JSNum.fin 1000) then
    (toFixed (JSNum.div mult (JSNum.fin 1000)) 1).map (fun s => s ++ "Kx")
  else if JSNum.ge mult (JSNum.fin 100) then
    (toFixed mult 0).map (fun s => s ++ "x")
  else if JSNum.ge mult (JSNum.fin 10) then
    (toFixed mult 1).map (fun s => s ++ "x")
  else (toFixed mult 2).map (fun s => s ++ "x")

/-! ## Quantities of the specification -/

/-- The percentage `(a - b) / c * 100` of the specification, computed as the code
computes it: each of the three operations rounds to binary64. -/
def pct (a b c : JSNum) : JSNum :=
  JSNum.mul (JSNum.div (JSNum.sub a b) c) hundred

/-- The place of a number that is neither NaN nor `-Infinity` in the order of the
comparison operators: its value, with `+Infinity` on top; the two zeros share a place. -/
def JSNum.key : JSNum → WithTop ℚ
  | JSNum.fin q => (q : WithTop ℚ)
  | JSNum.posInf => ⊤
  | _ => ((0 : ℚ) : WithTop ℚ)

/-- The distance `|close - buyAvgPrice|` of a candle, as the code computes it. -/
def distance (buyAvgPrice : JSNum) (c : Candle) : JSNum :=
  JSNum.abs (JSNum.sub c.close buyAvgPrice)

/-- The candle the specification selects in a series: the first one, in the order of
the list given, whose distance to the average buy price no candle of the list
undercuts. -/
def firstClosest (buyAvgPrice : JSNum) (candles : List Candle) : Option Candle :=
  candles.find? (fun c =>
    candles.all (fun d => !JSNum.lt (distance buyAvgPrice d) (distance buyAvgPrice c)))

/-- A trade record for the examples: token address `address`, `buys` buys at the
average price `avg`, the three volumes given, seen at time `0`, every other field empty. -/
def sampleRecord (address : String) (buys : Int) (avg buyVol sellVol balanceUsd : JSNum) :
    TradeRecord :=
  { tokenContractAddress := address
    tokenSymbol := ""
    latestTime := some 0
    totalTxBuy := buys
    totalTxSell := 0
    buyAvgPrice := avg
    buyVolume := buyVol
    sellVolume := sellVol
    balance := JSNum.nan
    balanceUsd := balanceUsd
    realizedPnl := JSNum.nan
    unrealizedPnl := JSNum.nan
    totalPnl := JSNum.nan }

/-- A candle for the examples: all four prices equal to `price`. -/
def flatCandle (timestamp : Int) (price : JSNum) : Candle :=
  { timestamp := timestamp, open_ := price, high := price, low := price, close := price }

/-- The invariant of the `reduce` that picks the closest candle: `r` is the first candle of `l` at the least distance. -/
def FirstLeast (d : Candle → WithTop ℚ) (l : List Candle) (r : Candle) : Prop :=
  ∃ p s, l = p ++ r :: s ∧ (∀ y ∈ p, d r < d y) ∧ (∀ y ∈ s, d r ≤ d y)

open JSNum Label

/-! # Theorems -/

/-! ## Rounding to binary64 -/

theorem roundHalfEven_bounds (x : ℚ) :
    ⌊x⌋ ≤ roundHalfEven x ∧ roundHalfEven x ≤ ⌊x⌋ + 1 := by
  unfold roundHalfEven
  split_ifs <;> constructor <;> omega

theorem roundHalfEven_intCast (n : Int) : roundHalfEven (n : ℚ) = n := by
  unfold roundHalfEven
  simp

theorem roundHalfEven_eq_of_near (x : ℚ) (n : Int) (h : |x - n| < 1 / 2) :
    roundHalfEven x = n := by
  rw [abs_lt] at h
  obtain ⟨h1, h2⟩ := h
  unfold roundHalfEven
  by_cases hx : (n : ℚ) ≤ x
  · have hf : ⌊x⌋ = n := by
      rw [Int.floor_eq_iff]
      constructor
      · exact hx
      · linarith
    rw [hf, if_pos (by linarith)]
  · have hf : ⌊x⌋ = n - 1 := by
      rw [Int.floor_eq_iff]
      push_cast
      constructor <;> linarith
    rw [hf]
    push_cast
    rw [if_neg (by linarith), if_pos (by linarith)]
    ring

theorem roundHalfEven_tie (x : ℚ) (n : Int) (h : x = n + 1 / 2) :
    roundHalfEven x = if n % 2 = 0 then n else n + 1 := by
  have hf : ⌊x⌋ = n := by
    rw [Int.floor_eq_iff]
    constructor <;> linarith
  unfold roundHalfEven
  rw [hf, if_neg (by linarith), if_neg (by linarith)]

theorem roundHalfEven_mono {x y : ℚ} (h : x ≤ y) : roundHalfEven x ≤ roundHalfEven y := by
  have hfl : ⌊x⌋ ≤ ⌊y⌋ := Int.floor_mono h
  rcases lt_or_eq_of_le hfl with hlt | heq
  · have := (roundHalfEven_bounds x).2
    have := (roundHalfEven_bounds y).1
    omega
  · unfold roundHalfEven
    rw [← heq]
    have hd : x - ⌊x⌋ ≤ y - ⌊x⌋ := by linarith
    split_ifs <;> first | omega | (exfalso; linarith)

theorem roundHalfEven_nonneg {x : ℚ} (h : 0 ≤ x) : 0 ≤ roundHalfEven x := by
  have := roundHalfEven_mono h
  rw [show ((0 : ℚ) = ((0 : Int) : ℚ)) by simp, roundHalfEven_intCast] at this
  exact this

theorem ulpExponent_of_bounds (q : ℚ) (e : Int) (h1 : (2 : ℚ) ^ e ≤ q)
    (h2 : q < (2 : ℚ) ^ (e + 1)) : ulpExponent q = max (e - 52) (-1074) := by
  have hq : 0 < q := lt_of_lt_of_le (by positivity) h1
  have hlog : Int.log 2 q = e := by
    apply le_antisymm
    · have := (Int.lt_zpow_iff_log_lt (b := 2) (by norm_num) hq).mp (by exact_mod_cast h2)
      omega
    · exact (Int.zpow_le_iff_le_log (b := 2) (by norm_num) hq).mp (by exact_mod_cast h1)
  rw [ulpExponent, hlog]

theorem roundMagnitude_nonneg {q : ℚ} (h : 0 ≤ q) : 0 ≤ roundMagnitude q := by
  unfold roundMagnitude
  have h1 : 0 ≤ q / 2 ^ ulpExponent q := by positivity
  have h2 := roundHalfEven_nonneg h1
  have h3 : (0 : ℚ) ≤ (roundHalfEven (q / 2 ^ ulpExponent q) : ℚ) := by exact_mod_cast h2
  positivity

/-- Evaluation of the rounding of a magnitude in the binade `[2^e, 2^(e+1))`, when the
scaled magnitude is within half a unit of the integer `n`. -/
theorem roundMagnitude_eq_of_near (q : ℚ) (e n : Int) (h1 : (2 : ℚ) ^ e ≤ q)
    (h2 : q < (2 : ℚ) ^ (e + 1))
    (hn : |q / 2 ^ max (e - 52) (-1074) - n| < 1 / 2) :
    roundMagnitude q = n * 2 ^ max (e - 52) (-1074) := by
  unfold roundMagnitude
  rw [ulpExponent_of_bounds q e h1 h2, roundHalfEven_eq_of_near _ n hn]

theorem roundMagnitude_eq_of_tie (q : ℚ) (e n : Int) (h1 : (2 : ℚ) ^ e ≤ q)
    (h2 : q < (2 : ℚ) ^ (e + 1))
    (hn : q / 2 ^ max (e - 52) (-1074) = n + 1 / 2) (heven : n % 2 = 0) :
    roundMagnitude q = n * 2 ^ max (e - 52) (-1074) := by
  unfold roundMagnitude
  rw [ulpExponent_of_bounds q e h1 h2, roundHalfEven_tie _ n hn, if_pos heven]

theorem roundDouble_pos {q : ℚ} (h : 0 < q) :
    roundDouble q =
      if 2 ^ 1024 ≤ roundMagnitude q then posInf else fin (roundMagnitude q) := by
  unfold roundDouble
  rw [if_neg h.ne', abs_of_pos h]
  by_cases ho : (2 : ℚ) ^ 1024 ≤ roundMagnitude q
  · simp [ho, h]
  · by_cases hz : roundMagnitude q = 0
    · simp [ho, hz, h]
    · simp [ho, hz, h]

theorem roundDouble_neg {q : ℚ} (h : q < 0) :
    roundDouble q =
      if 2 ^ 1024 ≤ roundMagnitude (-q) then negInf
      else if roundMagnitude (-q) = 0 then negZero
      else fin (-roundMagnitude (-q)) := by
  unfold roundDouble
  rw [if_neg h.ne, abs_of_neg h]
  have hn : ¬ (0 < q) := not_lt.mpr h.le
  simp [hn]

/-- Evaluation of `roundDouble` at a positive exact result. -/
theorem roundDouble_eq_of_near (q : ℚ) (e n : Int) (h1 : (2 : ℚ) ^ e ≤ q)
    (h2 : q < (2 : ℚ) ^ (e + 1))
    (hn : |q / 2 ^ max (e - 52) (-1074) - n| < 1 / 2)
    (hfit : (n : ℚ) * 2 ^ max (e - 52) (-1074) < 2 ^ 1024) :
    roundDouble q = fin (n * 2 ^ max (e - 52) (-1074)) := by
  have hq : 0 < q := lt_of_lt_of_le (by positivity) h1
  rw [roundDouble_pos hq, roundMagnitude_eq_of_near q e n h1 h2 hn, if_neg (not_le.mpr hfit)]

theorem roundDouble_zero : roundDouble 0 = fin 0 := by
  simp [roundDouble]

theorem roundDouble_ne_nan (q : ℚ) : roundDouble q ≠ nan := by
  unfold roundDouble
  split_ifs <;> simp

theorem roundDouble_isNaN (q : ℚ) : (roundDouble q).isNaN = false := by
  unfold roundDouble
  split_ifs <;> rfl

theorem roundHalfEven_le_of_le_int {x : ℚ} {n : Int} (h : x ≤ n) : roundHalfEven x ≤ n := by
  have := roundHalfEven_mono h
  rwa [roundHalfEven_intCast] at this

theorem roundHalfEven_ge_of_int_le {x : ℚ} {n : Int} (h : (n : ℚ) ≤ x) : n ≤ roundHalfEven x := by
  have := roundHalfEven_mono h
  rwa [roundHalfEven_intCast] at this

theorem zpow_two_eq_intCast (k : Int) (hk : 0 ≤ k) :
    ((2 : ℚ) ^ k) = (((2 : Int) ^ k.toNat : Int) : ℚ) := by
  obtain ⟨m, rfl⟩ := Int.eq_ofNat_of_zero_le hk
  simp

theorem roundMagnitude_mono {x y : ℚ} (hx : 0 < x) (hxy : x ≤ y) :
    roundMagnitude x ≤ roundMagnitude y := by
  have hy : 0 < y := lt_of_lt_of_le hx hxy
  have hlog : Int.log 2 x ≤ Int.log 2 y := Int.log_mono_right hx hxy
  have hp : ulpExponent x ≤ ulpExponent y := by
    unfold ulpExponent
    omega
  rcases lt_or_eq_of_le hp with hlt | heq
  · -- different units: a power of two lies between the two values
    have hpy : ulpExponent y = Int.log 2 y - 52 := by
      unfold ulpExponent at hlt ⊢
      omega
    have hex : Int.log 2 x + 1 ≤ Int.log 2 y := by
      unfold ulpExponent at hlt
      omega
    have hxle : x ≤ (2 : ℚ) ^ Int.log 2 y := by
      have h1 := Int.lt_zpow_succ_log_self (b := 2) (by norm_num) x
      have h2 : ((2 : ℕ) : ℚ) ^ (Int.log 2 x + 1) ≤ ((2 : ℕ) : ℚ) ^ Int.log 2 y :=
        zpow_le_zpow_right₀ (by norm_num) hex
      have := lt_of_lt_of_le h1 h2
      exact_mod_cast this.le
    have hyge : (2 : ℚ) ^ Int.log 2 y ≤ y := by
      have := Int.zpow_log_le_self (b := 2) (by norm_num) hy
      exact_mod_cast this
    -- left side
    have hleft : roundMagnitude x ≤ (2 : ℚ) ^ Int.log 2 y := by
      have hk : 0 ≤ Int.log 2 y - ulpExponent x := by omega
      have hsplit : (2 : ℚ) ^ Int.log 2 y =
          (2 : ℚ) ^ (Int.log 2 y - ulpExponent x) * 2 ^ ulpExponent x := by
        rw [← zpow_add₀ (by norm_num)]
        congr 1
        ring
      have hscaled : x / 2 ^ ulpExponent x ≤
          ((((2 : Int) ^ (Int.log 2 y - ulpExponent x).toNat : Int)) : ℚ) := by
        rw [← zpow_two_eq_intCast _ hk, div_le_iff₀ (by positivity), ← hsplit]
        exact hxle
      have hr := roundHalfEven_le_of_le_int hscaled
      unfold roundMagnitude
      rw [hsplit, zpow_two_eq_intCast _ hk]
      have : (0 : ℚ) < 2 ^ ulpExponent x := by positivity
      have hr2 : ((roundHalfEven (x / 2 ^ ulpExponent x) : Int) : ℚ) ≤
          ((((2 : Int) ^ (Int.log 2 y - ulpExponent x).toNat : Int)) : ℚ) := by
        exact_mod_cast hr
      exact mul_le_mul_of_nonneg_right hr2 this.le
    -- right side
    have hright : (2 : ℚ) ^ Int.log 2 y ≤ roundMagnitude y := by
      have hsplit : (2 : ℚ) ^ Int.log 2 y = (2 : ℚ) ^ (52 : Int) * 2 ^ ulpExponent y := by
        rw [← zpow_add₀ (by norm_num), hpy]
        congr 1
        ring
      have hscaled : (((2 : Int) ^ 52 : Int) : ℚ) ≤ y / 2 ^ ulpExponent y := by
        rw [le_div_iff₀ (by positivity)]
        have : (((2 : Int) ^ 52 : Int) : ℚ) = (2 : ℚ) ^ (52 : Int) := by norm_num
        rw [this, ← hsplit]
        exact hyge
      have hr := roundHalfEven_ge_of_int_le hscaled
      unfold roundMagnitude
      rw [hsplit]
      have : (0 : ℚ) < 2 ^ ulpExponent y := by positivity
      have hr2 : (2 : ℚ) ^ (52 : Int) ≤ ((roundHalfEven (y / 2 ^ ulpExponent y) : Int) : ℚ) := by
        have : (((2 : Int) ^ 52 : Int) : ℚ) ≤ ((roundHalfEven (y / 2 ^ ulpExponent y) : Int) : ℚ) := by
          exact_mod_cast hr
        have h2 : (((2 : Int) ^ 52 : Int) : ℚ) = (2 : ℚ) ^ (52 : Int) := by norm_num
        rwa [h2] at this
      exact mul_le_mul_of_nonneg_right hr2 this.le
    exact le_trans hleft hright
  · unfold roundMagnitude
    rw [heq]
    have hpos : (0 : ℚ) < 2 ^ ulpExponent y := by positivity
    have hscaled : x / 2 ^ ulpExponent y ≤ y / 2 ^ ulpExponent y :=
      div_le_div_of_nonneg_right hxy hpos.le
    have hr := roundHalfEven_mono hscaled
    have hr2 : ((roundHalfEven (x / 2 ^ ulpExponent y) : Int) : ℚ) ≤
        ((roundHalfEven (y / 2 ^ ulpExponent y) : Int) : ℚ) := by exact_mod_cast hr
    exact mul_le_mul_of_nonneg_right hr2 hpos.le

theorem roundDouble_lower {b q : ℚ} (hb : 0 < b) (h : b ≤ q) :
    roundDouble q = posInf ∨ ∃ r, roundDouble q = fin r ∧ roundMagnitude b ≤ r := by
  have hq : 0 < q := lt_of_lt_of_le hb h
  rw [roundDouble_pos hq]
  by_cases ho : (2 : ℚ) ^ 1024 ≤ roundMagnitude q
  · left; rw [if_pos ho]
  · right; rw [if_neg ho]
    exact ⟨_, rfl, roundMagnitude_mono hb h⟩

theorem roundDouble_upper {b q : ℚ} (hq : 0 < q) (h : q ≤ b)
    (hfit : roundMagnitude b < 2 ^ 1024) :
    ∃ r, roundDouble q = fin r ∧ 0 ≤ r ∧ r ≤ roundMagnitude b := by
  have hm := roundMagnitude_mono hq h
  rw [roundDouble_pos hq, if_neg (not_le.mpr (lt_of_le_of_lt hm hfit))]
  exact ⟨_, rfl, roundMagnitude_nonneg hq.le, hm⟩

theorem roundDouble_nonneg {q : ℚ} (hq : 0 ≤ q) :
    roundDouble q = posInf ∨ ∃ r, roundDouble q = fin r ∧ 0 ≤ r := by
  rcases lt_or_eq_of_le hq with h | h
  · rw [roundDouble_pos h]
    by_cases ho : (2 : ℚ) ^ 1024 ≤ roundMagnitude q
    · left; rw [if_pos ho]
    · right; rw [if_neg ho]
      exact ⟨_, rfl, roundMagnitude_nonneg hq⟩
  · right
    rw [← h, roundDouble_zero]
    exact ⟨0, rfl, le_refl _⟩

/-- Evaluation of `roundDouble` at a positive exact result, with the result named. -/
theorem roundDouble_eval (q r : ℚ) (e n : Int) (h1 : (2 : ℚ) ^ e ≤ q)
    (h2 : q < (2 : ℚ) ^ (e + 1))
    (hr : r = n * 2 ^ max (e - 52) (-1074))
    (hn : |q / 2 ^ max (e - 52) (-1074) - n| < 1 / 2)
    (hfit : r < 2 ^ 1024) :
    roundDouble q = fin r := by
  rw [hr] at hfit ⊢
  exact roundDouble_eq_of_near q e n h1 h2 hn hfit

/-- Evaluation of `roundMagnitude`, with the result named. -/
theorem roundMagnitude_eval (q r : ℚ) (e n : Int) (h1 : (2 : ℚ) ^ e ≤ q)
    (h2 : q < (2 : ℚ) ^ (e + 1))
    (hr : r = n * 2 ^ max (e - 52) (-1074))
    (hn : |q / 2 ^ max (e - 52) (-1074) - n| < 1 / 2) :
    roundMagnitude q = r := by
  rw [hr]
  exact roundMagnitude_eq_of_near q e n h1 h2 hn

/-! ## The tests on each kind of number -/

@[simp] theorem isNaN_fin (q : ℚ) : (fin q).isNaN = false := rfl
@[simp] theorem isNaN_negZero : negZero.isNaN = false := rfl
@[simp] theorem isNaN_posInf : posInf.isNaN = false := rfl
@[simp] theorem isNaN_negInf : negInf.isNaN = false := rfl
@[simp] theorem isNaN_nan : nan.isNaN = true := rfl
@[simp] theorem isInfinite_fin (q : ℚ) : (fin q).isInfinite = false := rfl
@[simp] theorem isInfinite_negZero : negZero.isInfinite = false := rfl
@[simp] theorem isInfinite_posInf : posInf.isInfinite = true := rfl
@[simp] theorem isInfinite_negInf : negInf.isInfinite = true := rfl
@[simp] theorem isInfinite_nan : nan.isInfinite = false := rfl
@[simp] theorem isZero_fin (q : ℚ) : (fin q).isZero = decide (q = 0) := rfl
@[simp] theorem isZero_negZero : negZero.isZero = true := rfl
@[simp] theorem isZero_posInf : posInf.isZero = false := rfl
@[simp] theorem isZero_negInf : negInf.isZero = false := rfl
@[simp] theorem isZero_nan : nan.isZero = false := rfl
@[simp] theorem isNegative_fin (q : ℚ) : (fin q).isNegative = decide (q < 0) := rfl
@[simp] theorem isNegative_negZero : negZero.isNegative = true := rfl
@[simp] theorem isNegative_posInf : posInf.isNegative = false := rfl
@[simp] theorem isNegative_negInf : negInf.isNegative = true := rfl
@[simp] theorem isNegative_nan : nan.isNegative = false := rfl
@[simp] theorem toRat_fin (q : ℚ) : (fin q).toRat = q := rfl
@[simp] theorem toRat_negZero : negZero.toRat = 0 := rfl
@[simp] theorem toRat_posInf : posInf.toRat = 0 := rfl
@[simp] theorem toRat_negInf : negInf.toRat = 0 := rfl
@[simp] theorem toRat_nan : nan.toRat = 0 := rfl
@[simp] theorem signedZero_isNaN (s : Bool) : (signedZero s).isNaN = false := by
  cases s <;> rfl
@[simp] theorem signedInfinity_isNaN (s : Bool) : (signedInfinity s).isNaN = false := by
  cases s <;> rfl
@[simp] theorem roundDouble_isNaN_simp (q : ℚ) : (roundDouble q).isNaN = false :=
  roundDouble_isNaN q

/-! ## Evaluation lemmas for finite numbers -/

@[simp] theorem add_fin (a b : ℚ) : add (fin a) (fin b) = roundDouble (a + b) := by
  by_cases h : a + b = 0
  · simp [add, h, roundDouble_zero]
    intro h1 h2
    linarith
  · simp [add, h]

theorem neg_fin (b : ℚ) : neg (fin b) = if b = 0 then negZero else fin (-b) := rfl

@[simp] theorem sub_fin (a b : ℚ) : sub (fin a) (fin b) = roundDouble (a - b) := by
  unfold sub
  rw [neg_fin]
  by_cases hb : b = 0
  · subst hb
    by_cases ha : a = 0
    · subst ha
      simp [add, roundDouble_zero]
    · simp [add, ha]
  · rw [if_neg hb, add_fin, sub_eq_add_neg]

theorem mul_fin (a b : ℚ) (h : a * b ≠ 0) : mul (fin a) (fin b) = roundDouble (a * b) := by
  simp [mul, h]

theorem div_fin (a b : ℚ) (ha : a ≠ 0) (hb : b ≠ 0) :
    div (fin a) (fin b) = roundDouble (a / b) := by
  simp [div, ha, hb]

@[simp] theorem lt_fin (a b : ℚ) : lt (fin a) (fin b) = decide (a < b) := by
  simp [lt]

@[simp] theorem gt_fin (a b : ℚ) : gt (fin a) (fin b) = decide (b < a) := by
  simp [gt]

@[simp] theorem le_fin (a b : ℚ) : le (fin a) (fin b) = decide (a ≤ b) := by
  simp [le]

@[simp] theorem ge_fin (a b : ℚ) : ge (fin a) (fin b) = decide (b ≤ a) := by
  simp [ge]

@[simp] theorem abs_fin (a : ℚ) : JSNum.abs (fin a) = fin |a| := rfl

theorem isFinite_iff (x : JSNum) : x.isFinite = true ↔ x = fin x.toRat ∨ x = negZero := by
  cases x <;> simp [isFinite]

/-! ## Exact results that need no rounding -/

theorem roundDouble_one : roundDouble 1 = fin 1 :=
  roundDouble_eval 1 1 0 (2 ^ 52) (by norm_num) (by norm_num) (by norm_num) (by norm_num)
    (by norm_num)

theorem roundDouble_hundred : roundDouble 100 = fin 100 :=
  roundDouble_eval 100 100 6 (100 * 2 ^ 46) (by norm_num) (by norm_num) (by norm_num)
    (by norm_num) (by norm_num)

theorem roundDouble_fifty : roundDouble 50 = fin 50 :=
  roundDouble_eval 50 50 5 (50 * 2 ^ 47) (by norm_num) (by norm_num) (by norm_num)
    (by norm_num) (by norm_num)

theorem roundDouble_half : roundDouble (1 / 2) = fin (1 / 2) :=
  roundDouble_eval (1 / 2) (1 / 2) (-1) (2 ^ 52) (by norm_num) (by norm_num) (by norm_num)
    (by norm_num) (by norm_num)

theorem roundDouble_quarter : roundDouble (1 / 4) = fin (1 / 4) :=
  roundDouble_eval (1 / 4) (1 / 4) (-2) (2 ^ 52) (by norm_num) (by norm_num) (by norm_num)
    (by norm_num) (by norm_num)

theorem roundDouble_twentyfive : roundDouble 25 = fin 25 :=
  roundDouble_eval 25 25 4 (25 * 2 ^ 48) (by norm_num) (by norm_num) (by norm_num)
    (by norm_num) (by norm_num)

/-! ## The scoring matrix -/

theorem scoreBuy_range (b a : Label) : scoreBuy b a ∈ [-2, -1, 0, 1, 2] := by
  cases b <;> cases a <;> decide

/-- C1: `scoreBuy` equals the fixed table.  The rows `dumped_to`, `fell_to` and `flat`
score `moon, pump, flat, dip, dump` as `2, 1, 0, -1, -2`; the row `rose_to` as
`1, 0, -1, -2, -2`; the row `pumped_to` as `0, -1, -1, -2, -2`; every pair whose before
label is not one of the five before labels, or whose after label is not one of the five
after labels, scores `0`; and every score is one of `-2, -1, 0, 1, 2`. -/
theorem scoreBuy_table :
    [moon, pump, flat, dip, dump].map (scoreBuy dumped_to) = [2, 1, 0, -1, -2] ∧
    [moon, pump, flat, dip, dump].map (scoreBuy fell_to) = [2, 1, 0, -1, -2] ∧
    [moon, pump, flat, dip, dump].map (scoreBuy flat) = [2, 1, 0, -1, -2] ∧
    [moon, pump, flat, dip, dump].map (scoreBuy rose_to) = [1, 0, -1, -2, -2] ∧
    [moon, pump, flat, dip, dump].map (scoreBuy pumped_to) = [0, -1, -1, -2, -2] ∧
    (∀ b a : Label,
      b ∉ [dumped_to, fell_to, flat, rose_to, pumped_to] ∨ a ∉ [moon, pump, flat, dip, dump] →
        scoreBuy b a = 0) ∧
    (∀ b a : Label, scoreBuy b a ∈ [-2, -1, 0, 1, 2]) := by
  refine ⟨by decide, by decide, by decide, by decide, by decide, ?_, scoreBuy_range⟩
  intro b a h
  cases b <;> cases a <;> first | rfl | (exfalso; revert h; decide)

/-- C1, at a pair outside the table: the before label `moon` with the after label
`rose_to` scores `0`. -/
theorem scoreBuy_table_witness : scoreBuy moon rose_to = 0 :=
  scoreBuy_table.2.2.2.2.2.1 moon rose_to (by decide)

/-! ## The classifiers -/

theorem sub_fin_isNaN (a b : ℚ) : (sub (fin a) (fin b)).isNaN = false := by
  rw [sub_fin]; exact roundDouble_isNaN _

theorem div_fin_isNaN (x : JSNum) (c : ℚ) (hx : x.isNaN = false) (hc : c ≠ 0) :
    (div x (fin c)).isNaN = false := by
  cases x with
  | nan => simp at hx
  | fin q => by_cases hq : q = 0 <;> simp [div, hc, hq]
  | negZero => simp [div, hc]
  | posInf => simp [div]
  | negInf => simp [div]

theorem mul_hundred_isNaN (x : JSNum) (hx : x.isNaN = false) :
    (mul x hundred).isNaN = false := by
  cases x with
  | nan => simp at hx
  | fin q => by_cases hq : q = 0 <;> simp [mul, hundred, hq]
  | negZero => simp [mul, hundred]
  | posInf => simp [mul, hundred]
  | negInf => simp [mul, hundred]

theorem pct_isNaN (a b c : ℚ) (hc : c ≠ 0) : (pct (fin a) (fin b) (fin c)).isNaN = false :=
  mul_hundred_isNaN _ (div_fin_isNaN _ c (sub_fin_isNaN a b) hc)

theorem lt_asymm_js (a b : JSNum) (h : lt a b = true) : lt b a = false := by
  cases a <;> cases b <;> simp [lt] at h ⊢ <;> exact h.le

theorem roundDouble_seventyfive : roundDouble 75 = fin 75 :=
  roundDouble_eval 75 75 6 (75 * 2 ^ 46) (by norm_num) (by norm_num) (by norm_num)
    (by norm_num) (by norm_num)

theorem roundDouble_hundredfifty : roundDouble 150 = fin 150 :=
  roundDouble_eval 150 150 7 (150 * 2 ^ 45) (by norm_num) (by norm_num) (by norm_num)
    (by norm_num) (by norm_num)

/-- C2: for positive prices the four percentages the classifiers compute,
`rise = (entryPrice - beforeMin) / beforeMin * 100`,
`fall = (beforeMax - entryPrice) / beforeMax * 100`,
`up = (afterMax - entryPrice) / entryPrice * 100` and
`down = (entryPrice - afterMin) / entryPrice * 100`, are numbers (never NaN), and
`classifyBefore` is `pumped_to` if `rise > 25` and `rise > fall`, otherwise `rose_to` if
`rise > 10` and `rise > fall`, otherwise `dumped_to` if `fall > 25` and `fall > rise`,
otherwise `fell_to` if `fall > 10` and `fall > rise`, otherwise `flat`; `classifyAfter`
does the same with `up` and `down`, giving `moon`, `pump`, `dump`, `dip`, `flat`.  When
neither side exceeds the other the label is `flat`, and a larger side of exactly 25 or
exactly 10 falls into the lower band.  The percentages are the values the code computes,
each operation rounded to binary64. -/
theorem classify_thresholds (entryPrice beforeMin beforeMax afterMin afterMax : ℚ)
    (hEntry : 0 < entryPrice) (hBeforeMin : 0 < beforeMin) (hBeforeMax : 0 < beforeMax)
    (_hAfterMin : 0 < afterMin) (_hAfterMax : 0 < afterMax) :
    ((pct (fin entryPrice) (fin beforeMin) (fin beforeMin)).isNaN = false ∧
      (pct (fin beforeMax) (fin entryPrice) (fin beforeMax)).isNaN = false ∧
      (pct (fin afterMax) (fin entryPrice) (fin entryPrice)).isNaN = false ∧
      (pct (fin entryPrice) (fin afterMin) (fin entryPrice)).isNaN = false) ∧
    (classifyBefore (fin entryPrice) (fin beforeMin) (fin beforeMax) =
      (if JSNum.gt (pct (fin entryPrice) (fin beforeMin) (fin beforeMin)) (fin 25) = true ∧
            JSNum.gt (pct (fin entryPrice) (fin beforeMin) (fin beforeMin))
              (pct (fin beforeMax) (fin entryPrice) (fin beforeMax)) = true then pumped_to
       else if JSNum.gt (pct (fin entryPrice) (fin beforeMin) (fin beforeMin)) (fin 10) = true ∧
            JSNum.gt (pct (fin entryPrice) (fin beforeMin) (fin beforeMin))
              (pct (fin beforeMax) (fin entryPrice) (fin beforeMax)) = true then rose_to
       else if JSNum.gt (pct (fin beforeMax) (fin entryPrice) (fin beforeMax)) (fin 25) = true ∧
            JSNum.gt (pct (fin beforeMax) (fin entryPrice) (fin beforeMax))
              (pct (fin entryPrice) (fin beforeMin) (fin beforeMin)) = true then dumped_to
       else if JSNum.gt (pct (fin beforeMax) (fin entryPrice) (fin beforeMax)) (fin 10) = true ∧
            JSNum.gt (pct (fin beforeMax) (fin entryPrice) (fin beforeMax))
              (pct (fin entryPrice) (fin beforeMin) (fin beforeMin)) = true then fell_to
       else flat)) ∧
    (classifyAfter (fin entryPrice) (fin afterMin) (fin afterMax) =
      (if JSNum.gt (pct (fin afterMax) (fin entryPrice) (fin entryPrice)) (fin 25) = true ∧
            JSNum.gt (pct (fin afterMax) (fin entryPrice) (fin entryPrice))
              (pct (fin entryPrice) (fin afterMin) (fin entryPrice)) = true then moon
       else if JSNum.gt (pct (fin afterMax) (fin entryPrice) (fin entryPrice)) (fin 10) = true ∧
            JSNum.gt (pct (fin afterMax) (fin entryPrice) (fin entryPrice))
              (pct (fin entryPrice) (fin afterMin) (fin entryPrice)) = true then pump
       else if JSNum.gt (pct (fin entryPrice) (fin afterMin) (fin entryPrice)) (fin 25) = true ∧
            JSNum.gt (pct (fin entryPrice) (fin afterMin) (fin entryPrice))
              (pct (fin afterMax) (fin entryPrice) (fin entryPrice)) = true then dump
       else if JSNum.gt (pct (fin entryPrice) (fin afterMin) (fin entryPrice)) (fin 10) = true ∧
            JSNum.gt (pct (fin entryPrice) (fin afterMin) (fin entryPrice))
              (pct (fin afterMax) (fin entryPrice) (fin entryPrice)) = true then dip
       else flat)) ∧
    (JSNum.gt (pct (fin entryPrice) (fin beforeMin) (fin beforeMin))
        (pct (fin beforeMax) (fin entryPrice) (fin beforeMax)) = false →
      JSNum.gt (pct (fin beforeMax) (fin entryPrice) (fin beforeMax))
        (pct (fin entryPrice) (fin beforeMin) (fin beforeMin)) = false →
      classifyBefore (fin entryPrice) (fin beforeMin) (fin beforeMax) = flat) ∧
    (JSNum.gt (pct (fin afterMax) (fin entryPrice) (fin entryPrice))
        (pct (fin entryPrice) (fin afterMin) (fin entryPrice)) = false →
      JSNum.gt (pct (fin entryPrice) (fin afterMin) (fin entryPrice))
        (pct (fin afterMax) (fin entryPrice) (fin entryPrice)) = false →
      classifyAfter (fin entryPrice) (fin afterMin) (fin afterMax) = flat) ∧
    (pct (fin entryPrice) (fin beforeMin) (fin beforeMin) = fin 25 →
      JSNum.gt (fin 25) (pct (fin beforeMax) (fin entryPrice) (fin beforeMax)) = true →
      classifyBefore (fin entryPrice) (fin beforeMin) (fin beforeMax) = rose_to) ∧
    (pct (fin entryPrice) (fin beforeMin) (fin beforeMin) = fin 10 →
      JSNum.gt (fin 10) (pct (fin beforeMax) (fin entryPrice) (fin beforeMax)) = true →
      classifyBefore (fin entryPrice) (fin beforeMin) (fin beforeMax) = flat) ∧
    (pct (fin beforeMax) (fin entryPrice) (fin beforeMax) = fin 25 →
      JSNum.gt (fin 25) (pct (fin entryPrice) (fin beforeMin) (fin beforeMin)) = true →
      classifyBefore (fin entryPrice) (fin beforeMin) (fin beforeMax) = fell_to) ∧
    (pct (fin beforeMax) (fin entryPrice) (fin beforeMax) = fin 10 →
      JSNum.gt (fin 10) (pct (fin entryPrice) (fin beforeMin) (fin beforeMin)) = true →
      classifyBefore (fin entryPrice) (fin beforeMin) (fin beforeMax) = flat) ∧
    (pct (fin afterMax) (fin entryPrice) (fin entryPrice) = fin 25 →
      JSNum.gt (fin 25) (pct (fin entryPrice) (fin afterMin) (fin entryPrice)) = true →
      classifyAfter (fin entryPrice) (fin afterMin) (fin afterMax) = pump) ∧
    (pct (fin afterMax) (fin entryPrice) (fin entryPrice) = fin 10 →
      JSNum.gt (fin 10) (pct (fin entryPrice) (fin afterMin) (fin entryPrice)) = true →
      classifyAfter (fin entryPrice) (fin afterMin) (fin afterMax) = flat) ∧
    (pct (fin entryPrice) (fin afterMin) (fin entryPrice) = fin 25 →
      JSNum.gt (fin 25) (pct (fin afterMax) (fin entryPrice) (fin entryPrice)) = true →
      classifyAfter (fin entryPrice) (fin afterMin) (fin afterMax) = dip) ∧
    (pct (fin entryPrice) (fin afterMin) (fin entryPrice) = fin 10 →
      JSNum.gt (fin 10) (pct (fin afterMax) (fin entryPrice) (fin entryPrice)) = true →
      classifyAfter (fin entryPrice) (fin afterMin) (fin afterMax) = flat) := by
  have hb : ∀ x y z : JSNum, classifyBefore x y z =
      (if JSNum.gt (pct x y y) (fin 25) = true ∧ JSNum.gt (pct x y y) (pct z x z) = true then
        pumped_to
       else if JSNum.gt (pct x y y) (fin 10) = true ∧
          JSNum.gt (pct x y y) (pct z x z) = true then rose_to
       else if JSNum.gt (pct z x z) (fin 25) = true ∧
          JSNum.gt (pct z x z) (pct x y y) = true then dumped_to
       else if JSNum.gt (pct z x z) (fin 10) = true ∧
          JSNum.gt (pct z x z) (pct x y y) = true then fell_to
       else flat) := by
    intro x y z
    simp only [classifyBefore, pct, Bool.and_eq_true]
  have ha : ∀ x y z : JSNum, classifyAfter x y z =
      (if JSNum.gt (pct z x x) (fin 25) = true ∧ JSNum.gt (pct z x x) (pct x y x) = true then
        moon
       else if JSNum.gt (pct z x x) (fin 10) = true ∧
          JSNum.gt (pct z x x) (pct x y x) = true then pump
       else if JSNum.gt (pct x y x) (fin 25) = true ∧
          JSNum.gt (pct x y x) (pct z x x) = true then dump
       else if JSNum.gt (pct x y x) (fin 10) = true ∧
          JSNum.gt (pct x y x) (pct z x x) = true then dip
       else flat) := by
    intro x y z
    simp only [classifyAfter, pct, Bool.and_eq_true]
  refine ⟨⟨pct_isNaN _ _ _ hBeforeMin.ne', pct_isNaN _ _ _ hBeforeMax.ne',
    pct_isNaN _ _ _ hEntry.ne', pct_isNaN _ _ _ hEntry.ne'⟩, hb _ _ _, ha _ _ _,
    ?_, ?_, ?_, ?_, ?_, ?_, ?_, ?_, ?_, ?_⟩
  · intro h1 h2; rw [hb, h1, h2]; simp
  · intro h1 h2; rw [ha, h1, h2]; simp
  · intro h1 h2; rw [hb, h1, h2]; norm_num
  · intro h1 h2
    have h3 := lt_asymm_js _ _ h2
    rw [hb, h1, h2]
    simp only [JSNum.gt] at h3 ⊢
    norm_num [h3]
  · intro h1 h2
    have h3 := lt_asymm_js _ _ h2
    rw [hb, h1, h2]
    simp only [JSNum.gt] at h3 ⊢
    norm_num [h3]
  · intro h1 h2
    have h3 := lt_asymm_js _ _ h2
    rw [hb, h1, h2]
    simp only [JSNum.gt] at h3 ⊢
    norm_num [h3]
  · intro h1 h2; rw [ha, h1, h2]; norm_num
  · intro h1 h2
    have h3 := lt_asymm_js _ _ h2
    rw [ha, h1, h2]
    simp only [JSNum.gt] at h3 ⊢
    norm_num [h3]
  · intro h1 h2
    have h3 := lt_asymm_js _ _ h2
    rw [ha, h1, h2]
    simp only [JSNum.gt] at h3 ⊢
    norm_num [h3]
  · intro h1 h2
    have h3 := lt_asymm_js _ _ h2
    rw [ha, h1, h2]
    simp only [JSNum.gt] at h3 ⊢
    norm_num [h3]

/-- C2, at entry price 150 after a low of 100 and a high of 200, followed by a low of 75
and a high of 300 (every intermediate result is exact in binary64): the rise of 50
percent beats the fall of 25 percent and gives `pumped_to`; the rise of 100 percent after
the entry beats the fall of 50 percent and gives `moon`. -/
theorem classify_thresholds_witness :
    classifyBefore (fin 150) (fin 100) (fin 200) = pumped_to ∧
    classifyAfter (fin 150) (fin 75) (fin 300) = moon := by
  have h := classify_thresholds 150 100 200 75 300 (by norm_num) (by norm_num)
    (by norm_num) (by norm_num) (by norm_num)
  have e1 : pct (fin 150) (fin 100) (fin 100) = fin 50 := by
    norm_num [pct, hundred, div_fin, mul_fin, roundDouble_fifty, roundDouble_half]
  have e2 : pct (fin 200) (fin 150) (fin 200) = fin 25 := by
    norm_num [pct, hundred, div_fin, mul_fin, roundDouble_fifty, roundDouble_quarter,
      roundDouble_twentyfive]
  have e3 : pct (fin 300) (fin 150) (fin 150) = fin 100 := by
    norm_num [pct, hundred, div_fin, mul_fin, roundDouble_hundredfifty, roundDouble_one,
      roundDouble_hundred]
  have e4 : pct (fin 150) (fin 75) (fin 150) = fin 50 := by
    norm_num [pct, hundred, div_fin, mul_fin, roundDouble_seventyfive, roundDouble_half,
      roundDouble_fifty]
  refine ⟨?_, ?_⟩
  · rw [h.2.1, e1, e2]; norm_num
  · rw [h.2.2.1, e3, e4]; norm_num

/-! ## Empty windows in `scoreEntry` -/

theorem gt_of_gt_ten_false (x : JSNum) (h : JSNum.gt x (fin 10) = false) :
    JSNum.gt x (fin 25) = false := by
  cases x <;> simp [JSNum.gt, lt] at h ⊢
  linarith

theorem classifyBefore_eq_flat_of_pct (x y z : JSNum)
    (h : JSNum.gt (pct x y y) (fin 10) = false ∧ JSNum.gt (pct z x z) (fin 10) = false) :
    classifyBefore x y z = flat := by
  have h25a : JSNum.gt (pct x y y) (fin 25) = false := gt_of_gt_ten_false _ h.1
  have h25b : JSNum.gt (pct z x z) (fin 25) = false := gt_of_gt_ten_false _ h.2
  simp only [pct] at h h25a h25b
  simp [classifyBefore, h.1, h.2, h25a, h25b]

theorem classifyAfter_eq_flat_of_pct (x y z : JSNum)
    (h : JSNum.gt (pct z x x) (fin 10) = false ∧ JSNum.gt (pct x y x) (fin 10) = false) :
    classifyAfter x y z = flat := by
  have h25a : JSNum.gt (pct z x x) (fin 25) = false := gt_of_gt_ten_false _ h.1
  have h25b : JSNum.gt (pct x y x) (fin 25) = false := gt_of_gt_ten_false _ h.2
  simp only [pct] at h h25a h25b
  simp [classifyAfter, h.1, h.2, h25a, h25b]

theorem div_zero_fin (q : ℚ) :
    div (fin 0) (fin q) = if q = 0 then nan else signedZero (decide (q < 0)) := by
  by_cases h : q = 0 <;> simp [div, h]

theorem mul_signedZero_hundred (s : Bool) : mul (signedZero s) hundred = signedZero s := by
  cases s <;> simp [mul, signedZero, hundred]

theorem gt_signedZero (s : Bool) (c : ℚ) (hc : 0 ≤ c) :
    JSNum.gt (signedZero s) (fin c) = false := by
  cases s <;> simp [JSNum.gt, lt, signedZero, hc]

theorem pct_self (e : JSNum) : JSNum.gt (pct e e e) (fin 10) = false := by
  cases e with
  | fin q =>
      simp only [pct, sub_fin, sub_self, roundDouble_zero, div_zero_fin]
      by_cases h0 : q = 0
      · simp [h0, mul, JSNum.gt, lt]
      · rw [if_neg h0, mul_signedZero_hundred]
        exact gt_signedZero _ _ (by norm_num)
  | negZero => simp [pct, sub, add, neg, div, mul, JSNum.gt, lt]
  | posInf => simp [pct, sub, add, neg, div, mul, JSNum.gt, lt]
  | negInf => simp [pct, sub, add, neg, div, mul, JSNum.gt, lt]
  | nan => simp [pct, sub, add, neg, div, mul, JSNum.gt, lt]

theorem classifyBefore_self (e : JSNum) : classifyBefore e e e = flat :=
  classifyBefore_eq_flat_of_pct e e e ⟨pct_self e, pct_self e⟩

theorem classifyAfter_self (e : JSNum) : classifyAfter e e e = flat :=
  classifyAfter_eq_flat_of_pct e e e ⟨pct_self e, pct_self e⟩

theorem beforeCtx_of_empty (entryPrice : JSNum) (entryTime : Int) (candles : List Candle)
    (h : beforeCandles entryTime candles = []) :
    beforeCtx entryPrice entryTime candles = flat := by
  simp [beforeCtx, h, classifyBefore_self]

theorem afterCtx_of_empty (entryPrice : JSNum) (entryTime : Int) (candles : List Candle)
    (h : afterCandles entryTime candles = []) :
    afterCtx entryPrice entryTime candles = flat := by
  simp [afterCtx, h, classifyAfter_self]

theorem beforeCandles_eq_nil (entryTime : Int) (candles : List Candle)
    (h : ∀ c ∈ candles, ¬ (entryTime - 28800000 ≤ c.timestamp ∧ c.timestamp < entryTime)) :
    beforeCandles entryTime candles = [] := by
  unfold beforeCandles
  rw [List.filter_eq_nil_iff]
  intro c hc
  have := h c hc
  simp only [LOOKBACK_MS, Bool.and_eq_true, decide_eq_true_eq, ge_iff_le]
  omega

theorem afterCandles_eq_nil (entryTime : Int) (candles : List Candle)
    (h : ∀ c ∈ candles, ¬ (entryTime < c.timestamp ∧ c.timestamp ≤ entryTime + 86400000)) :
    afterCandles entryTime candles = [] := by
  unfold afterCandles
  rw [List.filter_eq_nil_iff]
  intro c hc
  have := h c hc
  simp only [LOOKFORWARD_MS, Bool.and_eq_true, decide_eq_true_eq, gt_iff_lt]
  omega

/-- C4: in `scoreEntry`, when no candle has a timestamp `t` with
`entryTime - 8h <= t < entryTime` the before label is `flat`; when no candle has a
timestamp `t` with `entryTime < t <= entryTime + 24h` the after label is `flat`; and when
both windows are empty `scoreEntry` returns `0`, for every entry price (NaN and the
infinities included).  The empty series and a series whose only candle sits exactly at
`entryTime` are two such cases. -/
theorem scoreEntry_empty_windows (entryPrice : JSNum) (entryTime : Int)
    (candles : List Candle) :
    ((∀ c ∈ candles, ¬ (entryTime - 28800000 ≤ c.timestamp ∧ c.timestamp < entryTime)) →
      beforeCtx entryPrice entryTime candles = flat) ∧
    ((∀ c ∈ candles, ¬ (entryTime < c.timestamp ∧ c.timestamp ≤ entryTime + 86400000)) →
      afterCtx entryPrice entryTime candles = flat) ∧
    ((∀ c ∈ candles, ¬ (entryTime - 28800000 ≤ c.timestamp ∧ c.timestamp < entryTime)) →
      (∀ c ∈ candles, ¬ (entryTime < c.timestamp ∧ c.timestamp ≤ entryTime + 86400000)) →
      scoreEntry entryPrice entryTime candles = 0) ∧
    scoreEntry entryPrice entryTime [] = 0 ∧
    (∀ c : Candle, c.timestamp = entryTime → scoreEntry entryPrice entryTime [c] = 0) := by
  have both : ∀ cs : List Candle,
      (∀ c ∈ cs, ¬ (entryTime - 28800000 ≤ c.timestamp ∧ c.timestamp < entryTime)) →
      (∀ c ∈ cs, ¬ (entryTime < c.timestamp ∧ c.timestamp ≤ entryTime + 86400000)) →
      scoreEntry entryPrice entryTime cs = 0 := by
    intro cs hb ha
    unfold scoreEntry
    rw [beforeCtx_of_empty _ _ _ (beforeCandles_eq_nil _ _ hb),
      afterCtx_of_empty _ _ _ (afterCandles_eq_nil _ _ ha)]
    rfl
  refine ⟨?_, ?_, both candles, ?_, ?_⟩
  · intro h
    exact beforeCtx_of_empty _ _ _ (beforeCandles_eq_nil _ _ h)
  · intro h
    exact afterCtx_of_empty _ _ _ (afterCandles_eq_nil _ _ h)
  · exact both [] (by simp) (by simp)
  · intro c hc
    apply both [c]
    · intro d hd
      rw [List.mem_singleton] at hd
      subst hd
      omega
    · intro d hd
      rw [List.mem_singleton] at hd
      subst hd
      omega

/-- C4, on a series that has one candle two days before the entry and one two days
after it: both windows are empty and the score of an entry at price 7 is `0`. -/
theorem scoreEntry_empty_windows_witness :
    scoreEntry (fin 7) 1000000000
      [⟨1000000000 - 172800000, fin 1, fin 2, fin 1, fin 1⟩,
       ⟨1000000000 + 172800000, fin 90, fin 99, fin 80, fin 95⟩] = 0 :=
  (scoreEntry_empty_windows (fin 7) 1000000000
      [⟨1000000000 - 172800000, fin 1, fin 2, fin 1, fin 1⟩,
       ⟨1000000000 + 172800000, fin 90, fin 99, fin 80, fin 95⟩]).2.2.1
    (by
      intro c hc
      simp only [List.mem_cons, List.mem_singleton, List.not_mem_nil, or_false] at hc
      rcases hc with h | h <;> subst h <;> norm_num)
    (by
      intro c hc
      simp only [List.mem_cons, List.mem_singleton, List.not_mem_nil, or_false] at hc
      rcases hc with h | h <;> subst h <;> norm_num)

/-! ## Zero divisors in the classifiers -/

theorem classifyBefore_zero_min : classifyBefore (fin 1) (fin 0) (fin 1) = pumped_to := by
  have h1 : pct (fin 1) (fin 0) (fin 0) = posInf := by
    norm_num [pct, hundred, roundDouble_one, div, mul, signedInfinity]
  have h2 : pct (fin 1) (fin 1) (fin 1) = fin 0 := by
    norm_num [pct, hundred, roundDouble_zero, div, mul, signedZero]
  simp only [classifyBefore, pct] at h1 h2 ⊢
  rw [h1, h2]
  simp [JSNum.gt, lt]

/-- C3, at the failing input: a candle with a low of `0` in the eight hours before an
entry at price `1` makes `beforeMin` zero; `(1 - 0) / 0 * 100` is `Infinity`, so the
before label is `pumped_to`, not `flat`, and the entry scores `-1`; with a low of `1`
instead the same entry scores `0`.  `classifyBefore` has no test on its divisors, unlike
the rug check (`peakPrice > 0`), the multiplier (`buyVolume > 0`) and the entry scoring
itself (`buyAvgPrice > 0`: a token with an average buy price of `0` is not scored, which
keeps a zero `entryPrice` away from `classifyAfter`). -/
theorem classifyBefore_zero_divisor_unguarded :
    classifyBefore (fin 1) (fin 0) (fin 1) = pumped_to ∧
    beforeCtx (fin 1) 1000 [⟨999, fin 1, fin 1, fin 0, fin 1⟩] = pumped_to ∧
    scoreEntry (fin 1) 1000 [⟨999, fin 1, fin 1, fin 0, fin 1⟩] = -1 ∧
    scoreEntry (fin 1) 1000 [⟨999, fin 1, fin 1, fin 1, fin 1⟩] = 0 ∧
    scored (sampleRecord "T" 1 (fin 0) (fin 1) (fin 0) (fin 0))
      [⟨999, fin 1, fin 1, fin 0, fin 1⟩] = false := by
  have hwin : beforeCandles 1000 [(⟨999, fin 1, fin 1, fin 0, fin 1⟩ : Candle)] =
      [⟨999, fin 1, fin 1, fin 0, fin 1⟩] := by
    simp [beforeCandles, LOOKBACK_MS]
  have hwin2 : beforeCandles 1000 [(⟨999, fin 1, fin 1, fin 1, fin 1⟩ : Candle)] =
      [⟨999, fin 1, fin 1, fin 1, fin 1⟩] := by
    simp [beforeCandles, LOOKBACK_MS]
  have hafter : ∀ c : Candle, c.timestamp = 999 → afterCtx (fin 1) 1000 [c] = flat := by
    intro c hc
    apply afterCtx_of_empty
    apply afterCandles_eq_nil
    intro d hd
    rw [List.mem_singleton] at hd
    subst hd
    omega
  have hb0 : beforeCtx (fin 1) 1000 [⟨999, fin 1, fin 1, fin 0, fin 1⟩] = pumped_to := by
    unfold beforeCtx
    rw [hwin]
    simp [mathMin, mathMax, minTwo, maxTwo, lt, classifyBefore_zero_min]
  have hb1 : beforeCtx (fin 1) 1000 [⟨999, fin 1, fin 1, fin 1, fin 1⟩] = flat := by
    unfold beforeCtx
    rw [hwin2]
    simp [mathMin, mathMax, minTwo, maxTwo, lt, classifyBefore_self]
  refine ⟨classifyBefore_zero_min, hb0, ?_, ?_, ?_⟩
  · unfold scoreEntry
    rw [hb0, hafter _ rfl]
    rfl
  · unfold scoreEntry
    rw [hb1, hafter _ rfl]
    rfl
  · simp [scored, sampleRecord, orZero]

/-! ## The closest candle -/

theorem neg_isFinite (b : JSNum) (hb : b.isFinite = true) : (neg b).isFinite = true := by
  cases b with
  | fin q => by_cases h : q = 0 <;> simp [neg, h, isFinite]
  | negZero => rfl
  | posInf => simp [isFinite] at hb
  | negInf => simp [isFinite] at hb
  | nan => simp [isFinite] at hb

theorem add_finite_isNaN (a b : JSNum) (ha : a.isFinite = true) (hb : b.isFinite = true) :
    (add a b).isNaN = false := by
  have h1 : a.isNaN = false := by cases a <;> simp [isFinite] at ha ⊢
  have h2 : b.isNaN = false := by cases b <;> simp [isFinite] at hb ⊢
  have h3 : a.isInfinite = false := by cases a <;> simp [isFinite] at ha ⊢
  have h4 : b.isInfinite = false := by cases b <;> simp [isFinite] at hb ⊢
  unfold add
  simp only [h1, h2, h3, h4, Bool.or_self, Bool.false_eq_true, if_false]
  split_ifs <;> simp

theorem sub_finite_isNaN (a b : JSNum) (ha : a.isFinite = true) (hb : b.isFinite = true) :
    (sub a b).isNaN = false :=
  add_finite_isNaN a (neg b) ha (neg_isFinite b hb)

theorem abs_magnitude (x : JSNum) (hx : x.isNaN = false) :
    JSNum.abs x = posInf ∨ ∃ q, JSNum.abs x = fin q := by
  cases x with
  | nan => simp at hx
  | fin q => exact Or.inr ⟨_, rfl⟩
  | negZero => exact Or.inr ⟨_, rfl⟩
  | posInf => exact Or.inl rfl
  | negInf => exact Or.inl rfl

theorem lt_eq_key_lt (x y : JSNum) (hx : x = posInf ∨ ∃ q, x = fin q)
    (hy : y = posInf ∨ ∃ q, y = fin q) :
    lt x y = decide (x.key < y.key) := by
  rcases hx with rfl | ⟨a, rfl⟩ <;> rcases hy with rfl | ⟨b, rfl⟩
  · simp [lt, JSNum.key]
  · simp [lt, JSNum.key]
  · simp [lt, JSNum.key, WithTop.coe_lt_top]
  · simp [lt, JSNum.key, WithTop.coe_lt_coe]

theorem distance_magnitude (avg : JSNum) (c : Candle) (havg : avg.isFinite = true)
    (h : c.close.isFinite = true) :
    distance avg c = posInf ∨ ∃ q, distance avg c = fin q :=
  abs_magnitude _ (sub_finite_isNaN _ _ h havg)

theorem distance_isNaN (avg : JSNum) (c : Candle) (havg : avg.isFinite = true)
    (h : c.close.isFinite = true) : (distance avg c).isNaN = false := by
  rcases distance_magnitude avg c havg h with h1 | ⟨q, h1⟩ <;> rw [h1] <;> rfl

theorem closerCandle_eq (avg : JSNum) (best c : Candle) (havg : avg.isFinite = true)
    (hb : best.close.isFinite = true) (hc : c.close.isFinite = true) :
    closerCandle avg best c =
      if (distance avg c).key < (distance avg best).key then c else best := by
  have h := lt_eq_key_lt _ _ (distance_magnitude avg c havg hc)
    (distance_magnitude avg best havg hb)
  unfold distance at h
  unfold closerCandle distance
  rw [h]
  simp

theorem firstLeast_step (avg : JSNum) (l : List Candle) (r x : Candle)
    (havg : avg.isFinite = true)
    (hfin : ∀ c ∈ l ++ [x], c.close.isFinite = true)
    (h : FirstLeast (fun c => (distance avg c).key) l r) :
    FirstLeast (fun c => (distance avg c).key) (l ++ [x]) (closerCandle avg r x) := by
  obtain ⟨p, s, hl, hp, hs⟩ := h
  have hr : r ∈ l := by rw [hl]; simp
  rw [closerCandle_eq avg r x havg (hfin r (by simp [hr])) (hfin x (by simp))]
  by_cases hx : (distance avg x).key < (distance avg r).key
  · rw [if_pos hx]
    refine ⟨l, [], rfl, ?_, by simp⟩
    intro y hy
    rw [hl] at hy
    simp only [List.mem_append, List.mem_cons] at hy
    rcases hy with hy | hy | hy
    · exact lt_trans hx (hp y hy)
    · subst hy; exact hx
    · exact lt_of_lt_of_le hx (hs y hy)
  · rw [if_neg hx]
    refine ⟨p, s ++ [x], by rw [hl]; simp, hp, ?_⟩
    intro y hy
    simp only [List.mem_append, List.mem_singleton] at hy
    rcases hy with hy | hy
    · exact hs y hy
    · subst hy; exact not_lt.mp hx

theorem firstLeast_foldl (avg : JSNum) (havg : avg.isFinite = true) (rest : List Candle) :
    ∀ (l : List Candle) (r : Candle),
      (∀ c ∈ l ++ rest, c.close.isFinite = true) →
      FirstLeast (fun c => (distance avg c).key) l r →
      FirstLeast (fun c => (distance avg c).key) (l ++ rest)
        (rest.foldl (closerCandle avg) r) := by
  induction rest with
  | nil => intro l r _ h; simpa using h
  | cons x xs ih =>
      intro l r hfin h
      have hstep := firstLeast_step avg l r x havg
        (by intro c hc; apply hfin; simp only [List.mem_append, List.mem_singleton] at hc
            simp only [List.mem_append, List.mem_cons]; tauto) h
      have := ih (l ++ [x]) (closerCandle avg r x) (by simpa using hfin) hstep
      simpa using this

theorem firstClosest_of_firstLeast (avg : JSNum) (havg : avg.isFinite = true)
    (l : List Candle) (r : Candle)
    (hfin : ∀ c ∈ l, c.close.isFinite = true)
    (h : FirstLeast (fun c => (distance avg c).key) l r) :
    firstClosest avg l = some r := by
  obtain ⟨p, s, hl, hp, hs⟩ := h
  have hr : r ∈ l := by rw [hl]; simp
  have hlt : ∀ a ∈ l, ∀ b ∈ l, JSNum.lt (distance avg a) (distance avg b) =
      decide ((distance avg a).key < (distance avg b).key) := fun a ha b hb =>
    lt_eq_key_lt _ _ (distance_magnitude avg a havg (hfin a ha))
      (distance_magnitude avg b havg (hfin b hb))
  unfold firstClosest
  rw [List.find?_eq_some]
  refine ⟨?_, p, s, hl, ?_⟩
  · rw [List.all_eq_true]
    intro y hy
    rw [hlt y hy r hr]
    simp only [Bool.not_eq_true', decide_eq_false_iff_not, not_lt]
    rw [hl] at hy
    simp only [List.mem_append, List.mem_cons] at hy
    rcases hy with hy | hy | hy
    · exact (hp y hy).le
    · subst hy; exact le_refl _
    · exact hs y hy
  · intro a ha
    have hal : a ∈ l := by rw [hl]; simp [ha]
    simp only [Bool.not_eq_true', List.all_eq_false]
    refine ⟨r, hr, ?_⟩
    rw [hlt r hr a hal]
    simpa using hp a ha

theorem sortCandles_sorted (candles : List Candle) :
    (sortCandles candles).Pairwise (fun a b => b.timestamp ≤ a.timestamp) := by
  haveI : IsTotal Candle (fun a b => b.timestamp ≤ a.timestamp) :=
    ⟨fun a b => le_total b.timestamp a.timestamp⟩
  haveI : IsTrans Candle (fun a b => b.timestamp ≤ a.timestamp) :=
    ⟨fun a b c hab hbc => le_trans hbc hab⟩
  exact List.sorted_insertionSort (fun a b => b.timestamp ≤ a.timestamp) candles

theorem mem_sortCandles (candles : List Candle) (c : Candle) :
    c ∈ sortCandles candles ↔ c ∈ candles :=
  List.mem_insertionSort _

theorem orZero_isFinite (x : JSNum) (h : x.isFinite = true) : (orZero x).isFinite = true := by
  cases x <;> simp [isFinite, orZero] at h ⊢

theorem roundDouble_four : roundDouble 4 = fin 4 :=
  roundDouble_eval 4 4 2 (2 ^ 52) (by norm_num) (by norm_num) (by norm_num)
    (by norm_num) (by norm_num)

/-- C5 fails as stated: for a token bought at an average price of 10 and the candle
series `[t = 1, close 10]`, `[t = 2, close 10]`, both candles are at distance `0`; the
first of them in input order has timestamp `1`, but the entry time handed to
`scoreEntry` is `2`, because the rug check has sorted the array by descending timestamp
before the closest candle is searched. -/
theorem closest_candle_input_order_counterexample :
    scored (sampleRecord "T" 1 (fin 10) (fin 1) (fin 0) (fin 0))
      [flatCandle 1 (fin 10), flatCandle 2 (fin 10)] = true ∧
    (firstClosest (fin 10) [flatCandle 1 (fin 10), flatCandle 2 (fin 10)]).map
      (fun c => c.timestamp) = some 1 ∧
    entryTimeOf (sampleRecord "T" 1 (fin 10) (fin 1) (fin 0) (fin 0))
      [flatCandle 1 (fin 10), flatCandle 2 (fin 10)] = some 2 := by
  refine ⟨?_, ?_, ?_⟩
  · norm_num [scored, sampleRecord, orZero]
  · norm_num [firstClosest, distance, flatCandle, roundDouble_zero, List.find?]
  · norm_num [entryTimeOf, closestCandle, sortCandles, sampleRecord, orZero, flatCandle,
      closerCandle, roundDouble_zero]

/-- C5, amended: when the entry is scored (a non-empty series, `buyCount > 0`,
`buyAvgPrice > 0`) and the closes and the average buy price are finite numbers, every
distance `|close - buyAvgPrice|` the code computes is a number, the candle whose
timestamp is the entry time is one whose computed distance no candle of the series
undercuts, and among the candles that tie for that minimum it is the first in the series
as sorted by the rug check (descending timestamp), so no tied candle has a greater
timestamp.  The distances are the values the code computes, the subtraction rounded to
binary64: two closes at different exact distances may tie. -/
theorem closest_candle_after_sort (token : TradeRecord) (candles : List Candle)
    (hscored : scored token candles = true)
    (hclose : ∀ c ∈ candles, c.close.isFinite = true)
    (havg : token.buyAvgPrice.isFinite = true) :
    ∃ chosen ∈ candles,
      closestCandle (orZero token.buyAvgPrice) candles = some chosen ∧
      entryTimeOf token candles = some chosen.timestamp ∧
      (∀ c ∈ candles, (distance (orZero token.buyAvgPrice) c).isNaN = false) ∧
      (∀ c ∈ candles, JSNum.lt (distance (orZero token.buyAvgPrice) c)
        (distance (orZero token.buyAvgPrice) chosen) = false) ∧
      firstClosest (orZero token.buyAvgPrice) (sortCandles candles) = some chosen ∧
      (∀ c ∈ candles, JSNum.lt (distance (orZero token.buyAvgPrice) chosen)
        (distance (orZero token.buyAvgPrice) c) = false → c.timestamp ≤ chosen.timestamp) := by
  have hne : candles ≠ [] := by
    intro h
    rw [h] at hscored
    simp [scored] at hscored
  have havg2 : (orZero token.buyAvgPrice).isFinite = true := orZero_isFinite _ havg
  unfold entryTimeOf closestCandle
  generalize orZero token.buyAvgPrice = avg at havg2 ⊢
  have hsorted := sortCandles_sorted candles
  have hfin : ∀ c ∈ sortCandles candles, c.close.isFinite = true :=
    fun c hc => hclose c ((mem_sortCandles candles c).mp hc)
  have hlt : ∀ a ∈ candles, ∀ b ∈ candles, JSNum.lt (distance avg a) (distance avg b) =
      decide ((distance avg a).key < (distance avg b).key) := fun a ha b hb =>
    lt_eq_key_lt _ _ (distance_magnitude avg a havg2 (hclose a ha))
      (distance_magnitude avg b havg2 (hclose b hb))
  cases hsort : sortCandles candles with
  | nil =>
      exfalso
      apply hne
      have hlen : (sortCandles candles).length = candles.length :=
        List.length_insertionSort _ candles
      rw [hsort] at hlen
      exact List.length_eq_zero.mp hlen.symm
  | cons first rest =>
      rw [hsort] at hsorted hfin
      have hinv := firstLeast_foldl avg havg2 rest [first] first (by simpa using hfin)
        ⟨[], [], rfl, by simp, by simp⟩
      simp only [List.singleton_append] at hinv
      have hfirst := firstClosest_of_firstLeast avg havg2 (first :: rest) _ hfin hinv
      obtain ⟨p, s, hl, hp, hs⟩ := hinv
      have hmemSorted : rest.foldl (closerCandle avg) first ∈ first :: rest := by
        rw [hl]; simp
      have hmem : rest.foldl (closerCandle avg) first ∈ candles :=
        (mem_sortCandles candles _).mp (by rw [hsort]; exact hmemSorted)
      refine ⟨_, hmem, ?_, ?_, ?_, ?_, hfirst, ?_⟩
      · simp [hsort]
      · simp [hsort]
      · intro c hc
        exact distance_isNaN avg c havg2 (hclose c hc)
      · intro c hc
        rw [hlt c hc _ hmem]
        simp only [decide_eq_false_iff_not, not_lt]
        have hc2 : c ∈ first :: rest := by
          rw [← hsort]; exact (mem_sortCandles candles c).mpr hc
        rw [hl] at hc2
        simp only [List.mem_append, List.mem_cons] at hc2
        rcases hc2 with h | h | h
        · exact (hp c h).le
        · rw [h]
        · exact hs c h
      · intro c hc heq
        rw [hlt _ hmem c hc] at heq
        simp only [decide_eq_false_iff_not, not_lt] at heq
        have hc2 : c ∈ first :: rest := by
          rw [← hsort]; exact (mem_sortCandles candles c).mpr hc
        rw [hl] at hc2 hsorted
        simp only [List.mem_append, List.mem_cons] at hc2
        rcases hc2 with h | h | h
        · exact absurd heq (not_le.mpr (hp c h))
        · rw [h]
        · rw [List.pairwise_append] at hsorted
          exact (List.pairwise_cons.mp hsorted.2.1).1 c h

/-- C5, amended, on the series `[t = 1, close 10]`, `[t = 2, close 10]`, `[t = 3, close
14]` for a token bought at 10: the entry time is `2`, the later of the two candles at
distance `0`. -/
theorem closest_candle_after_sort_witness :
    ∃ chosen ∈ [flatCandle 1 (fin 10), flatCandle 2 (fin 10), flatCandle 3 (fin 14)],
      chosen.timestamp = 2 ∧
      entryTimeOf (sampleRecord "T" 1 (fin 10) (fin 1) (fin 0) (fin 0))
        [flatCandle 1 (fin 10), flatCandle 2 (fin 10), flatCandle 3 (fin 14)] =
          some chosen.timestamp := by
  obtain ⟨chosen, hmem, _, htime, _, _, _, _⟩ :=
    closest_candle_after_sort (sampleRecord "T" 1 (fin 10) (fin 1) (fin 0) (fin 0))
      [flatCandle 1 (fin 10), flatCandle 2 (fin 10), flatCandle 3 (fin 14)]
      (by norm_num [scored, sampleRecord, orZero])
      (by
        intro c hc
        simp only [List.mem_cons, List.mem_singleton, List.not_mem_nil, or_false] at hc
        rcases hc with h | h | h <;> subst h <;> rfl)
      rfl
  refine ⟨chosen, hmem, ?_, htime⟩
  have h := htime
  norm_num [entryTimeOf, closestCandle, sortCandles, sampleRecord, orZero, flatCandle,
    closerCandle, roundDouble_zero, roundDouble_four] at h
  exact h.symm

/-! ## The wallet aggregation -/

theorem foldl_scoreToken (f : String → List Candle) (ts : List TradeRecord) :
    ∀ st : Results,
      (ts.foldl (scoreToken f) st).tokens =
        st.tokens ++ ts.map (fun t => tokenResult t (f t.tokenContractAddress)) ∧
      (ts.foldl (scoreToken f) st).allScores =
        st.allScores ++ (ts.map (fun t =>
          if scored t (f t.tokenContractAddress) then
            List.replicate t.totalTxBuy.toNat (tokenScore t (f t.tokenContractAddress))
          else [])).flatten ∧
      (ts.foldl (scoreToken f) st).stats.distribution =
        (ts.map (fun t => tokenScore t (f t.tokenContractAddress))).foldl countDistribution
          st.stats.distribution ∧
      (ts.foldl (scoreToken f) st).stats.totalTokens = st.stats.totalTokens := by
  induction ts with
  | nil => intro st; simp
  | cons t ts ih =>
      intro st
      obtain ⟨h1, h2, h3, h4⟩ := ih (scoreToken f st t)
      simp only [List.foldl_cons, List.map_cons, List.flatten_cons]
      refine ⟨?_, ?_, ?_, ?_⟩
      · rw [h1]; simp [scoreToken]
      · rw [h2]
        by_cases hs : scored t (f t.tokenContractAddress) = true
        · simp [scoreToken, hs]
        · simp [scoreToken, hs]
      · rw [h3]; simp [scoreToken]
      · rw [h4]; simp [scoreToken]

theorem countDistribution_foldl (scores : List Int) :
    ∀ d : Distribution,
      (scores.foldl countDistribution d).excellent = d.excellent + scores.count 2 ∧
      (scores.foldl countDistribution d).good = d.good + scores.count 1 ∧
      (scores.foldl countDistribution d).neutral = d.neutral + scores.count 0 ∧
      (scores.foldl countDistribution d).poor = d.poor + scores.count (-1) ∧
      (scores.foldl countDistribution d).terrible = d.terrible + scores.count (-2) := by
  induction scores with
  | nil => intro d; simp
  | cons x xs ih =>
      intro d
      obtain ⟨h1, h2, h3, h4, h5⟩ := ih (countDistribution d x)
      simp only [List.foldl_cons]
      rw [h1, h2, h3, h4, h5]
      unfold countDistribution
      by_cases e2 : x = 2
      · subst e2; simp [List.count_cons]; omega
      by_cases e1 : x = 1
      · subst e1; simp [List.count_cons]; omega
      by_cases e0 : x = 0
      · subst e0; simp [List.count_cons]; omega
      by_cases em1 : x = -1
      · subst em1; simp [List.count_cons]; omega
      by_cases em2 : x = -2
      · subst em2; simp [List.count_cons]; omega
      · simp [List.count_cons, e2, e1, e0, em1, em2]

theorem count_range_sum (scores : List Int) (h : ∀ x ∈ scores, x ∈ [-2, -1, 0, 1, 2]) :
    scores.count 2 + scores.count 1 + scores.count 0 + scores.count (-1) + scores.count (-2) =
      scores.length := by
  induction scores with
  | nil => simp
  | cons x xs ih =>
      have hx := h x (by simp)
      have ih2 := ih (fun y hy => h y (by simp [hy]))
      simp only [List.mem_cons, List.mem_singleton, List.not_mem_nil, or_false] at hx
      rcases hx with e | e | e | e | e <;> subst e <;> simp [List.count_cons] <;> omega

theorem tokenScore_range (t : TradeRecord) (cs : List Candle) :
    tokenScore t cs ∈ [-2, -1, 0, 1, 2] := by
  unfold tokenScore
  split
  · split
    · exact scoreBuy_range _ _
    · decide
  · decide

theorem fetchTradingHistory_length (pages : List HistoryPage) (limit : Nat) :
    (fetchTradingHistory pages limit).length ≤ limit := by
  unfold fetchTradingHistory
  rw [List.length_take]
  exact Nat.min_le_left _ _

theorem evaluatedTokens_eq (pages : List HistoryPage) (now : Int) (maxTokens : Nat) :
    evaluatedTokens pages now maxTokens =
      recentTokens now (fetchTradingHistory pages maxTokens) := by
  unfold evaluatedTokens
  apply List.take_of_length_le
  exact le_trans (List.length_filter_le _ _) (fetchTradingHistory_length pages maxTokens)

theorem scoreWallet_loop (pages : List HistoryPage) (now : Int)
    (f : String → List Candle) (maxTokens : Nat) :
    (scoreWallet pages now f maxTokens).tokens =
      (evaluatedTokens pages now maxTokens).map
        (fun t => tokenResult t (f t.tokenContractAddress)) ∧
    (scoreWallet pages now f maxTokens).stats.distribution =
      ((evaluatedTokens pages now maxTokens).map
        (fun t => tokenScore t (f t.tokenContractAddress))).foldl countDistribution
        { excellent := 0, good := 0, neutral := 0, poor := 0, terrible := 0 } ∧
    (scoreWallet pages now f maxTokens).stats.totalTokens =
      (evaluatedTokens pages now maxTokens).length ∧
    (scoreWallet pages now f maxTokens).allScores =
      ((evaluatedTokens pages now maxTokens).map (fun t =>
        if scored t (f t.tokenContractAddress) then
          List.replicate t.totalTxBuy.toNat (tokenScore t (f t.tokenContractAddress))
        else [])).flatten := by
  obtain ⟨h1, h2, h3, h4⟩ := foldl_scoreToken f (evaluatedTokens pages now maxTokens)
    (initialResults (recentTokens now (fetchTradingHistory pages maxTokens)).length)
  refine ⟨?_, ?_, ?_, ?_⟩
  · simpa [scoreWallet, evaluatedTokens, initialResults] using h1
  · simpa [scoreWallet, evaluatedTokens, initialResults] using h3
  · rw [evaluatedTokens_eq]
    simpa [scoreWallet, evaluatedTokens, initialResults] using h4
  · simpa [scoreWallet, evaluatedTokens, initialResults] using h2

/-- C6: after `scoreWallet` the five distribution counters add up to
`stats.totalTokens`, which is the number of entries of `results.tokens` (the history
returned by `fetchTradingHistory` has at most `maxTokens` records, so the cut
`slice(0, maxTokens)` drops none).  Each counter is the number of entries whose score is
`2`, `1`, `0`, `-1`, `-2` respectively, and a token for which no entry score is computed
(no candles, a buy count of zero or less, or an average buy price that is not above
zero) has score `0` and so counts as neutral. -/
theorem distribution_partitions_tokens (pages : List HistoryPage) (now : Int)
    (fetchCandles : String → List Candle) (maxTokens : Nat) :
    (scoreWallet pages now fetchCandles maxTokens).stats.distribution.excellent +
      (scoreWallet pages now fetchCandles maxTokens).stats.distribution.good +
      (scoreWallet pages now fetchCandles maxTokens).stats.distribution.neutral +
      (scoreWallet pages now fetchCandles maxTokens).stats.distribution.poor +
      (scoreWallet pages now fetchCandles maxTokens).stats.distribution.terrible =
        (scoreWallet pages now fetchCandles maxTokens).stats.totalTokens ∧
    (scoreWallet pages now fetchCandles maxTokens).stats.totalTokens =
      (scoreWallet pages now fetchCandles maxTokens).tokens.length ∧
    (scoreWallet pages now fetchCandles maxTokens).tokens.length ≤ maxTokens ∧
    (scoreWallet pages now fetchCandles maxTokens).stats.distribution.excellent =
      (scoreWallet pages now fetchCandles maxTokens).tokens.countP (fun r => r.score = 2) ∧
    (scoreWallet pages now fetchCandles maxTokens).stats.distribution.good =
      (scoreWallet pages now fetchCandles maxTokens).tokens.countP (fun r => r.score = 1) ∧
    (scoreWallet pages now fetchCandles maxTokens).stats.distribution.neutral =
      (scoreWallet pages now fetchCandles maxTokens).tokens.countP (fun r => r.score = 0) ∧
    (scoreWallet pages now fetchCandles maxTokens).stats.distribution.poor =
      (scoreWallet pages now fetchCandles maxTokens).tokens.countP (fun r => r.score = -1) ∧
    (scoreWallet pages now fetchCandles maxTokens).stats.distribution.terrible =
      (scoreWallet pages now fetchCandles maxTokens).tokens.countP (fun r => r.score = -2) ∧
    (scoreWallet pages now fetchCandles maxTokens).tokens =
      (evaluatedTokens pages now maxTokens).map
        (fun t => tokenResult t (fetchCandles t.tokenContractAddress)) ∧
    (∀ (t : TradeRecord) (candles : List Candle),
      candles = [] ∨ t.totalTxBuy ≤ 0 ∨ JSNum.gt (orZero t.buyAvgPrice) (fin 0) = false →
        (tokenResult t candles).score = 0) := by
  obtain ⟨ht, hd, hn, _⟩ := scoreWallet_loop pages now fetchCandles maxTokens
  obtain ⟨c2, c1, c0, cm1, cm2⟩ := countDistribution_foldl
    ((evaluatedTokens pages now maxTokens).map
      (fun t => tokenScore t (fetchCandles t.tokenContractAddress)))
    { excellent := 0, good := 0, neutral := 0, poor := 0, terrible := 0 }
  have hsum := count_range_sum
    ((evaluatedTokens pages now maxTokens).map
      (fun t => tokenScore t (fetchCandles t.tokenContractAddress)))
    (by
      intro x hx
      rw [List.mem_map] at hx
      obtain ⟨t, _, rfl⟩ := hx
      exact tokenScore_range _ _)
  have hcount : ∀ v : Int,
      ((evaluatedTokens pages now maxTokens).map
        (fun t => tokenScore t (fetchCandles t.tokenContractAddress))).count v =
      ((evaluatedTokens pages now maxTokens).map
        (fun t => tokenResult t (fetchCandles t.tokenContractAddress))).countP
          (fun r => r.score = v) := by
    intro v
    rw [List.count, List.countP_map, List.countP_map]
    apply List.countP_congr
    intro t _
    simp [tokenResult]
  rw [hd, ht, hn]
  simp only [c2, c1, c0, cm1, cm2, Nat.zero_add, hcount] at hsum ⊢
  refine ⟨?_, by simp, ?_, trivial, trivial, trivial, trivial, trivial, trivial, ?_⟩
  · simpa using hsum
  · rw [List.length_map, evaluatedTokens]
    rw [List.length_take]
    exact Nat.min_le_left _ _
  · intro t candles h
    simp only [tokenResult, tokenScore]
    rcases h with h | h | h
    · subst h; simp [scored]
    · have : ¬ (0 < t.totalTxBuy) := by omega
      simp [scored, this]
    · simp [scored, h]

/-- C6, for one answer of the endpoint holding a token without buys and a token
without candles: the counters add up to `totalTokens`, and a token without candles
scores `0`. -/
theorem distribution_partitions_tokens_witness :
    (scoreWallet [⟨0, [sampleRecord "A" 0 (fin 1) (fin 1) (fin 1) (fin 0),
        sampleRecord "B" 2 (fin 1) (fin 1) (fin 1) (fin 0)], false⟩] 0 (fun _ => []) 30).stats.distribution.excellent +
      (scoreWallet [⟨0, [sampleRecord "A" 0 (fin 1) (fin 1) (fin 1) (fin 0),
        sampleRecord "B" 2 (fin 1) (fin 1) (fin 1) (fin 0)], false⟩] 0 (fun _ => []) 30).stats.distribution.good +
      (scoreWallet [⟨0, [sampleRecord "A" 0 (fin 1) (fin 1) (fin 1) (fin 0),
        sampleRecord "B" 2 (fin 1) (fin 1) (fin 1) (fin 0)], false⟩] 0 (fun _ => []) 30).stats.distribution.neutral +
      (scoreWallet [⟨0, [sampleRecord "A" 0 (fin 1) (fin 1) (fin 1) (fin 0),
        sampleRecord "B" 2 (fin 1) (fin 1) (fin 1) (fin 0)], false⟩] 0 (fun _ => []) 30).stats.distribution.poor +
      (scoreWallet [⟨0, [sampleRecord "A" 0 (fin 1) (fin 1) (fin 1) (fin 0),
        sampleRecord "B" 2 (fin 1) (fin 1) (fin 1) (fin 0)], false⟩] 0 (fun _ => []) 30).stats.distribution.terrible =
      (scoreWallet [⟨0, [sampleRecord "A" 0 (fin 1) (fin 1) (fin 1) (fin 0),
        sampleRecord "B" 2 (fin 1) (fin 1) (fin 1) (fin 0)], false⟩] 0 (fun _ => []) 30).stats.totalTokens ∧
    (tokenResult (sampleRecord "B" 2 (fin 1) (fin 1) (fin 1) (fin 0)) []).score = 0 :=
  ⟨(distribution_partitions_tokens _ 0 (fun _ => []) 30).1,
   (distribution_partitions_tokens [] 0 (fun _ => []) 30).2.2.2.2.2.2.2.2.2
      (sampleRecord "B" 2 (fin 1) (fin 1) (fin 1) (fin 0)) [] (Or.inl rfl)⟩

theorem sumScores_eq (l : List Int) : sumScores l = l.sum := by
  unfold sumScores
  have : ∀ (l : List Int) (a : Int), l.foldl (fun a b => a + b) a = a + l.sum := by
    intro l
    induction l with
    | nil => intro a; simp
    | cons x xs ih => intro a; simp [ih, add_assoc]
  simpa using this l 0

theorem allScores_length_sum (f : String → List Candle) (ts : List TradeRecord) :
    (((ts.map (fun t =>
        if scored t (f t.tokenContractAddress) then
          List.replicate t.totalTxBuy.toNat (tokenScore t (f t.tokenContractAddress))
        else [])).flatten.length : Nat) : Int) =
      ((ts.filter (fun t => scored t (f t.tokenContractAddress))).map
        (fun t => t.totalTxBuy)).sum ∧
    (ts.map (fun t =>
        if scored t (f t.tokenContractAddress) then
          List.replicate t.totalTxBuy.toNat (tokenScore t (f t.tokenContractAddress))
        else [])).flatten.sum =
      ((ts.filter (fun t => scored t (f t.tokenContractAddress))).map
        (fun t => t.totalTxBuy * tokenScore t (f t.tokenContractAddress))).sum := by
  induction ts with
  | nil => simp
  | cons t ts ih =>
      obtain ⟨ih1, ih2⟩ := ih
      by_cases hs : scored t (f t.tokenContractAddress) = true
      · have hpos : 0 < t.totalTxBuy := by
          simp only [scored, Bool.and_eq_true, decide_eq_true_eq] at hs
          exact hs.1.2
        have hnat : ((t.totalTxBuy.toNat : Nat) : Int) = t.totalTxBuy :=
          Int.toNat_of_nonneg hpos.le
        constructor
        · simp only [List.map_cons, hs, if_true, List.flatten_cons, List.length_append,
            List.length_replicate, List.filter_cons_of_pos, List.sum_cons, Nat.cast_add]
          rw [ih1, hnat]
        · simp only [List.map_cons, hs, if_true, List.flatten_cons, List.sum_append,
            List.sum_replicate, List.filter_cons_of_pos, List.sum_cons, smul_eq_mul, nsmul_eq_mul]
          rw [ih2, hnat]
      · constructor
        · simpa [List.filter_cons, hs] using ih1
        · simpa [List.filter_cons, hs] using ih2

theorem div_fin_int (s : ℚ) (n : ℚ) (hn : 0 < n) :
    JSNum.div (fin s) (fin n) = roundDouble (s / n) := by
  by_cases hs : s = 0
  · subst hs
    rw [div_zero_fin, if_neg hn.ne']
    simp [signedZero, not_lt.mpr hn.le, roundDouble_zero]
  · exact div_fin _ _ hs hn.ne'

/-- C7: `stats.totalBuys` is the sum of `buyCount` over exactly the evaluated tokens
that have at least one candle, `buyCount > 0` and `buyAvgPrice > 0`, and `stats.avgScore`
is the mean of the population in which the score of each such token appears `buyCount`
times: `sum(buyCount * score) / totalBuys`, the quotient being the binary64 value nearest
to the exact one, and `0` when the population is empty.  Tokens failing the condition
contribute nothing. -/
theorem avgScore_weighted_mean (pages : List HistoryPage) (now : Int)
    (fetchCandles : String → List Candle) (maxTokens : Nat) :
    (((scoreWallet pages now fetchCandles maxTokens).stats.totalBuys : Nat) : Int) =
      (((evaluatedTokens pages now maxTokens).filter
        (fun t => decide (0 < (fetchCandles t.tokenContractAddress).length) &&
          decide (0 < t.totalTxBuy) &&
          JSNum.gt (orZero t.buyAvgPrice) (fin 0))).map (fun t => t.totalTxBuy)).sum ∧
    (scoreWallet pages now fetchCandles maxTokens).stats.avgScore =
      (if (scoreWallet pages now fetchCandles maxTokens).stats.totalBuys = 0 then fin 0
       else roundDouble (((((evaluatedTokens pages now maxTokens).filter
        (fun t => decide (0 < (fetchCandles t.tokenContractAddress).length) &&
          decide (0 < t.totalTxBuy) &&
          JSNum.gt (orZero t.buyAvgPrice) (fin 0))).map
            (fun t => t.totalTxBuy * tokenScore t (fetchCandles t.tokenContractAddress))).sum : Int) /
          (((scoreWallet pages now fetchCandles maxTokens).stats.totalBuys : Nat) : ℚ))) := by
  obtain ⟨_, _, _, hall⟩ := scoreWallet_loop pages now fetchCandles maxTokens
  obtain ⟨hlen, hsum⟩ := allScores_length_sum fetchCandles (evaluatedTokens pages now maxTokens)
  have hbuys : (scoreWallet pages now fetchCandles maxTokens).stats.totalBuys =
      (scoreWallet pages now fetchCandles maxTokens).allScores.length := by
    simp [scoreWallet]
  have havg : (scoreWallet pages now fetchCandles maxTokens).stats.avgScore =
      (if (scoreWallet pages now fetchCandles maxTokens).allScores.length > 0 then
        JSNum.div (fin (sumScores (scoreWallet pages now fetchCandles maxTokens).allScores))
          (fin (scoreWallet pages now fetchCandles maxTokens).allScores.length)
       else fin 0) := by
    simp [scoreWallet]
  have hscored : (fun t : TradeRecord => scored t (fetchCandles t.tokenContractAddress)) =
      (fun t => decide (0 < (fetchCandles t.tokenContractAddress).length) &&
          decide (0 < t.totalTxBuy) && JSNum.gt (orZero t.buyAvgPrice) (fin 0)) := by
    funext t; simp [scored]
  rw [hscored] at hlen hsum
  rw [havg, hbuys, hall, ← hlen, ← hsum, sumScores_eq]
  refine ⟨rfl, ?_⟩
  split_ifs with h1 h2 h2
  · omega
  · exact div_fin_int _ _ (by exact_mod_cast Nat.pos_of_ne_zero h2)
  · rfl
  · omega

/-! ## The rug check -/

theorem isNaN_of_isFinite (x : JSNum) (h : x.isFinite = true) : x.isNaN = false := by
  cases x <;> simp [isFinite] at h ⊢

theorem isInfinite_of_isFinite (x : JSNum) (h : x.isFinite = true) : x.isInfinite = false := by
  cases x <;> simp [isFinite] at h ⊢

theorem lt_finite (a b : JSNum) (ha : a.isFinite = true) (hb : b.isFinite = true) :
    lt a b = decide (a.toRat < b.toRat) := by
  simp [lt, isNaN_of_isFinite a ha, isNaN_of_isFinite b hb, isInfinite_of_isFinite a ha,
    isInfinite_of_isFinite b hb]

theorem maxTwo_negInf (x : JSNum) (hx : x.isFinite = true) : maxTwo x negInf = x := by
  cases x <;> simp [isFinite] at hx <;> simp [maxTwo, lt]

theorem maxTwo_finite (a b : JSNum) (ha : a.isFinite = true) (hb : b.isFinite = true) :
    (maxTwo a b = a ∨ maxTwo a b = b) ∧ a.toRat ≤ (maxTwo a b).toRat ∧
      b.toRat ≤ (maxTwo a b).toRat := by
  unfold maxTwo
  rw [lt_finite a b ha hb, lt_finite b a hb ha]
  by_cases h1 : a.toRat < b.toRat
  · simp [h1, h1.le]
  · by_cases h2 : b.toRat < a.toRat
    · simp [h1, h2, h2.le]
    · have heq : a.toRat = b.toRat := le_antisymm (not_lt.mp h2) (not_lt.mp h1)
      by_cases h3 : a.isNegative = true
      · simp [h1, h2, h3, heq]
      · simp [h1, h2, h3, heq]

theorem mathMax_finite (xs : List JSNum) (hne : xs ≠ [])
    (hfin : ∀ x ∈ xs, x.isFinite = true) :
    mathMax xs ∈ xs ∧ ∀ x ∈ xs, x.toRat ≤ (mathMax xs).toRat := by
  induction xs with
  | nil => exact absurd rfl hne
  | cons x xs ih =>
      have hx := hfin x (by simp)
      by_cases hxs : xs = []
      · subst hxs
        have : mathMax [x] = x := by
          simp [mathMax, isNaN_of_isFinite x hx, maxTwo_negInf x hx]
        rw [this]
        simp
      · obtain ⟨hmem, hle⟩ := ih hxs (fun y hy => hfin y (by simp [hy]))
        have hm : (mathMax xs).isFinite = true := hfin _ (by simp [hmem])
        have hstep : mathMax (x :: xs) = maxTwo x (mathMax xs) := by
          simp [mathMax, isNaN_of_isFinite x hx, isNaN_of_isFinite _ hm]
        rw [hstep]
        obtain ⟨hor, h1, h2⟩ := maxTwo_finite x (mathMax xs) hx hm
        constructor
        · rcases hor with h | h
          · rw [h]; simp
          · rw [h]; simp [hmem]
        · intro y hy
          simp only [List.mem_cons] at hy
          rcases hy with h | h
          · rw [h]; exact h1
          · exact le_trans (hle y h) h2

theorem sortCandles_head (candles : List Candle) (hne : candles ≠ []) :
    ∃ first rest, sortCandles candles = first :: rest ∧ first ∈ candles ∧
      ∀ c ∈ candles, c.timestamp ≤ first.timestamp := by
  have hsorted := sortCandles_sorted candles
  cases hsort : sortCandles candles with
  | nil =>
      exfalso
      apply hne
      have hlen : (sortCandles candles).length = candles.length :=
        List.length_insertionSort _ candles
      rw [hsort] at hlen
      exact List.length_eq_zero.mp hlen.symm
  | cons first rest =>
      refine ⟨first, rest, rfl, ?_, ?_⟩
      · exact (mem_sortCandles candles first).mp (by rw [hsort]; simp)
      · intro c hc
        have hc2 : c ∈ first :: rest := by
          rw [← hsort]; exact (mem_sortCandles candles c).mpr hc
        rw [hsort] at hsorted
        simp only [List.mem_cons] at hc2
        rcases hc2 with h | h
        · rw [h]
        · exact (List.pairwise_cons.mp hsorted).1 c h

theorem isRuggedOf_iff (candles : List Candle) (latest : Candle) (peak : ℚ)
    (hfin : ∀ c ∈ candles, c.high.isFinite = true ∧ c.close.isFinite = true)
    (hlatest : latest ∈ candles)
    (hmax : ∀ c ∈ candles, c.timestamp ≤ latest.timestamp ∧
      (c.timestamp = latest.timestamp → c.close = latest.close))
    (hpeak : ∃ c ∈ candles, c.high.toRat = peak)
    (hbound : ∀ c ∈ candles, c.high.toRat ≤ peak) :
    isRuggedOf candles = true ↔
      0 < peak ∧ JSNum.ge (pct (fin peak) latest.close (fin peak)) (fin 90) = true := by
  have hne : candles ≠ [] := List.ne_nil_of_mem hlatest
  obtain ⟨first, rest, hsort, hfirst, hfirstMax⟩ := sortCandles_head candles hne
  have hclose : first.close = latest.close :=
    (hmax first hfirst).2 (le_antisymm (hmax first hfirst).1 (hfirstMax latest hlatest))
  have hhighs : ∀ x ∈ (first :: rest).map (fun c => c.high), x.isFinite = true := by
    intro x hx
    rw [List.mem_map] at hx
    obtain ⟨c, hc, rfl⟩ := hx
    exact (hfin c ((mem_sortCandles candles c).mp (by rw [hsort]; exact hc))).1
  obtain ⟨hqmem, hqle⟩ := mathMax_finite ((first :: rest).map (fun c => c.high))
    (by simp) hhighs
  have hqfin := hhighs _ hqmem
  have hqp : (mathMax ((first :: rest).map (fun c => c.high))).toRat = peak := by
    apply le_antisymm
    · rw [List.mem_map] at hqmem
      obtain ⟨c, hc, hcq⟩ := hqmem
      have := hbound c ((mem_sortCandles candles c).mp (by rw [hsort]; exact hc))
      rw [hcq] at this
      exact this
    · obtain ⟨c, hc, hcp⟩ := hpeak
      have hc2 : c ∈ first :: rest := by
        rw [← hsort]; exact (mem_sortCandles candles c).mpr hc
      have := hqle c.high (List.mem_map.mpr ⟨c, hc2, rfl⟩)
      rw [hcp] at this
      exact this
  have hgt : JSNum.gt (mathMax ((first :: rest).map (fun c => c.high))) (fin 0) =
      decide (0 < peak) := by
    rw [JSNum.gt, lt_finite (fin 0) _ (by rfl) hqfin, hqp]
    rfl
  unfold isRuggedOf
  rw [hsort]
  simp only [hgt, hclose]
  by_cases hpos : 0 < peak
  · have hval : mathMax ((first :: rest).map (fun c => c.high)) = fin peak := by
      rcases (isFinite_iff _).mp hqfin with h | h
      · rw [h, hqp]
      · rw [h] at hqp
        simp at hqp
        exact absurd hqp.symm hpos.ne'
    simp only [List.map_cons] at hval
    simp [hpos, hval, pct]
  · simp [hpos]

theorem sub_fin_finite (a : ℚ) (b : JSNum) (hb : b.isFinite = true) :
    sub (fin a) b = roundDouble (a - b.toRat) := by
  rcases (isFinite_iff b).mp hb with h | h
  · rw [h, sub_fin]; simp
  · rw [h]
    simp [sub, neg]

theorem roundMagnitude_ninety : roundMagnitude 90 = 90 :=
  roundMagnitude_eval 90 90 6 (90 * 2 ^ 46) (by norm_num) (by norm_num) (by norm_num)
    (by norm_num)

theorem roundMagnitude_nineTenths :
    roundMagnitude (9 / 10) = 8106479329266893 / 2 ^ 53 :=
  roundMagnitude_eval (9 / 10) _ (-1) 8106479329266893 (by norm_num) (by norm_num)
    (by norm_num) (by rw [abs_lt]; constructor <;> norm_num)

theorem roundDouble_ninety : roundDouble 90 = fin 90 :=
  roundDouble_eval 90 90 6 (90 * 2 ^ 46) (by norm_num) (by norm_num) (by norm_num)
    (by norm_num) (by norm_num)

theorem roundDouble_eightyfive : roundDouble 85 = fin 85 :=
  roundDouble_eval 85 85 6 (85 * 2 ^ 46) (by norm_num) (by norm_num) (by norm_num)
    (by norm_num) (by norm_num)

/-- The percentage of a fall from a peak of 100 to a close of 10, as the code computes
it: `90 / 100` rounds to the binary64 value just above `0.9`, and its product with 100
rounds to `90`. -/
theorem pct_hundred_ten : pct (fin 100) (fin 10) (fin 100) = fin 90 := by
  have h1 : roundDouble (9 / 10) = fin (8106479329266893 / 2 ^ 53) :=
    roundDouble_eval (9 / 10) _ (-1) 8106479329266893 (by norm_num) (by norm_num)
      (by norm_num) (by rw [abs_lt]; constructor <;> norm_num) (by norm_num)
  have h2 : roundDouble (8106479329266893 / 2 ^ 53 * 100) = fin 90 :=
    roundDouble_eval _ 90 6 (90 * 2 ^ 46) (by norm_num) (by norm_num) (by norm_num)
      (by rw [abs_lt]; constructor <;> norm_num) (by norm_num)
  have e1 : sub (fin 100) (fin 10) = fin 90 := by
    rw [sub_fin]; norm_num [roundDouble_ninety]
  have e2 : div (fin 90) (fin 100) = fin (8106479329266893 / 2 ^ 53) := by
    rw [div_fin _ _ (by norm_num) (by norm_num), ← h1]; norm_num
  have e3 : mul (fin (8106479329266893 / 2 ^ 53)) hundred = fin 90 := by
    rw [hundred, mul_fin _ _ (by norm_num), h2]
  rw [pct, e1, e2, e3]

/-- The percentage of a fall from a peak of 100 to a close of 15, as the code computes
it: `85`. -/
theorem pct_hundred_fifteen : pct (fin 100) (fin 15) (fin 100) = fin 85 := by
  have h1 : roundDouble (17 / 20) = fin (7656119366529843 / 2 ^ 53) :=
    roundDouble_eval (17 / 20) _ (-1) 7656119366529843 (by norm_num) (by norm_num)
      (by norm_num) (by rw [abs_lt]; constructor <;> norm_num) (by norm_num)
  have h2 : roundDouble (7656119366529843 / 2 ^ 53 * 100) = fin 85 :=
    roundDouble_eval _ 85 6 (85 * 2 ^ 46) (by norm_num) (by norm_num) (by norm_num)
      (by rw [abs_lt]; constructor <;> norm_num) (by norm_num)
  have e1 : sub (fin 100) (fin 15) = fin 85 := by
    rw [sub_fin]; norm_num [roundDouble_eightyfive]
  have e2 : div (fin 85) (fin 100) = fin (7656119366529843 / 2 ^ 53) := by
    rw [div_fin _ _ (by norm_num) (by norm_num), ← h1]; norm_num
  have e3 : mul (fin (7656119366529843 / 2 ^ 53)) hundred = fin 85 := by
    rw [hundred, mul_fin _ _ (by norm_num), h2]
  rw [pct, e1, e2, e3]

/-- From a peak of 100, every finite close of at most 10 gives a computed percentage of
at least 90: rounding is monotone and `90` is a binary64 value. -/
theorem pct_hundred_le_ten (close : JSNum) (hfin : close.isFinite = true)
    (hle : close.toRat ≤ 10) :
    JSNum.ge (pct (fin 100) close (fin 100)) (fin 90) = true := by
  unfold pct
  rw [sub_fin_finite _ _ hfin]
  have hq : (90 : ℚ) ≤ 100 - close.toRat := by linarith
  rcases roundDouble_lower (by norm_num : (0 : ℚ) < 90) hq with h1 | ⟨r1, h1, hr1⟩
  · rw [h1]
    norm_num [div, mul, hundred, signedInfinity, JSNum.ge, le]
  · rw [h1, roundMagnitude_ninety] at *
    have hr1pos : r1 ≠ 0 := by linarith
    rw [div_fin _ _ hr1pos (by norm_num)]
    have hq2 : (9 / 10 : ℚ) ≤ r1 / 100 := by
      rw [le_div_iff₀ (by norm_num)]; linarith
    rcases roundDouble_lower (by norm_num : (0 : ℚ) < 9 / 10) hq2 with h2 | ⟨r2, h2, hr2⟩
    · rw [h2]
      norm_num [mul, hundred, signedInfinity, JSNum.ge, le]
    · rw [h2]
      rw [roundMagnitude_nineTenths] at hr2
      have hr2pos : 0 < r2 := lt_of_lt_of_le (by norm_num) hr2
      rw [hundred, mul_fin _ _ (by positivity)]
      have hq3 : (90 : ℚ) ≤ r2 * 100 := by
        have : (8106479329266893 / 2 ^ 53 : ℚ) * 100 ≤ r2 * 100 :=
          mul_le_mul_of_nonneg_right hr2 (by norm_num)
        refine le_trans ?_ this
        norm_num
      rcases roundDouble_lower (by norm_num : (0 : ℚ) < 90) hq3 with h3 | ⟨r3, h3, hr3⟩
      · rw [h3]; simp [JSNum.ge, le]
      · rw [h3]
        rw [roundMagnitude_ninety] at hr3
        simp [hr3]

theorem isRuggedOf_pair (a b : Candle) (ht : a.timestamp = b.timestamp)
    (ha : a.high = fin 100) (hb : b.high = fin 100) :
    isRuggedOf [a, b] = JSNum.ge (pct (fin 100) a.close (fin 100)) (fin 90) := by
  have hsort : sortCandles [a, b] = [a, b] := by
    simp [sortCandles, List.insertionSort, List.orderedInsert, ht]
  unfold isRuggedOf
  rw [hsort]
  simp [mathMax, maxTwo, lt, ha, hb, JSNum.gt, pct]

/-- C8 fails as stated: the order of the candles matters when two candles share the
greatest timestamp.  The two candles below have the same timestamp and a high of 100; one
closes at 10, the other at 15.  Supplied with the close of 10 first the series is
rugged, supplied the other way round it is not: the stable sort keeps the first of them
in front, and its close is the current price. -/
theorem isRugged_order_counterexample :
    isRuggedOf [⟨5, fin 100, fin 100, fin 10, fin 10⟩, ⟨5, fin 100, fin 100, fin 15, fin 15⟩] =
      true ∧
    isRuggedOf [⟨5, fin 100, fin 100, fin 15, fin 15⟩, ⟨5, fin 100, fin 100, fin 10, fin 10⟩] =
      false := by
  constructor
  · rw [isRuggedOf_pair ⟨5, fin 100, fin 100, fin 10, fin 10⟩
      ⟨5, fin 100, fin 100, fin 15, fin 15⟩ rfl rfl rfl]
    simp only [pct_hundred_ten]
    norm_num
  · rw [isRuggedOf_pair ⟨5, fin 100, fin 100, fin 15, fin 15⟩
      ⟨5, fin 100, fin 100, fin 10, fin 10⟩ rfl rfl rfl]
    simp only [pct_hundred_fifteen]
    norm_num

/-- C8, amended: `isRugged` is false for an empty candle series.  For a non-empty
series of finite prices, with `peak` the greatest `high` and `latest` a candle of
greatest timestamp, every candle sharing that timestamp having the same close,
`isRugged` is true exactly when `peak > 0` and the percentage
`(peak - latest.close) / peak * 100`, as the code computes it with each operation
rounded to binary64, is `>= 90`.  With a peak of 100 a latest close of at most 10 is
rugged and a latest close of 15 is not, and under the condition on the latest close the
flag is the same in whatever order the candles are supplied. -/
theorem isRugged_threshold (candles : List Candle) (latest : Candle) (peak : ℚ)
    (hfin : ∀ c ∈ candles, c.high.isFinite = true ∧ c.close.isFinite = true)
    (hlatest : latest ∈ candles)
    (hmax : ∀ c ∈ candles, c.timestamp ≤ latest.timestamp ∧
      (c.timestamp = latest.timestamp → c.close = latest.close))
    (hpeak : ∃ c ∈ candles, c.high.toRat = peak)
    (hbound : ∀ c ∈ candles, c.high.toRat ≤ peak) :
    isRuggedOf [] = false ∧
    (isRuggedOf candles = true ↔
      0 < peak ∧ JSNum.ge (pct (fin peak) latest.close (fin peak)) (fin 90) = true) ∧
    (peak = 100 → latest.close.toRat ≤ 10 → isRuggedOf candles = true) ∧
    (peak = 100 → latest.close.toRat = 15 → isRuggedOf candles = false) ∧
    (∀ supplied : List Candle, supplied.Perm candles →
      isRuggedOf supplied = isRuggedOf candles) := by
  have hiff := isRuggedOf_iff candles latest peak hfin hlatest hmax hpeak hbound
  have hlc := (hfin latest hlatest).2
  refine ⟨rfl, hiff, ?_, ?_, ?_⟩
  · intro hp hc
    rw [hiff, hp]
    exact ⟨by norm_num, pct_hundred_le_ten _ hlc hc⟩
  · intro hp hc
    have hclose : latest.close = fin 15 := by
      rcases (isFinite_iff _).mp hlc with h | h
      · rw [h, hc]
      · rw [h] at hc; simp at hc
    rw [← Bool.not_eq_true, hiff, hp, hclose, pct_hundred_fifteen]
    norm_num
  · intro supplied hperm
    have hiff2 := isRuggedOf_iff supplied latest peak
      (fun c hc => hfin c (hperm.mem_iff.mp hc))
      (hperm.mem_iff.mpr hlatest)
      (fun c hc => hmax c (hperm.mem_iff.mp hc))
      (by obtain ⟨c, hc, h⟩ := hpeak; exact ⟨c, hperm.mem_iff.mpr hc, h⟩)
      (fun c hc => hbound c (hperm.mem_iff.mp hc))
    rw [Bool.eq_iff_iff, hiff, hiff2]

/-- C8, amended, on the series `[t = 1, all prices 100]`, `[t = 2, all prices 10]`: the
peak is 100 and the latest close is 10, a computed drop of 90 percent, so the token is
rugged. -/
theorem isRugged_threshold_witness :
    isRuggedOf [flatCandle 1 (fin 100), flatCandle 2 (fin 10)] = true :=
  (isRugged_threshold [flatCandle 1 (fin 100), flatCandle 2 (fin 10)]
      (flatCandle 2 (fin 10)) 100
      (by
        intro c hc
        simp only [List.mem_cons, List.mem_singleton, List.not_mem_nil, or_false] at hc
        rcases hc with h | h <;> subst h <;> exact ⟨rfl, rfl⟩)
      (by simp)
      (by
        intro c hc
        simp only [List.mem_cons, List.mem_singleton, List.not_mem_nil, or_false] at hc
        rcases hc with h | h <;> subst h <;> simp [flatCandle])
      ⟨flatCandle 1 (fin 100), by simp, rfl⟩
      (by
        intro c hc
        simp only [List.mem_cons, List.mem_singleton, List.not_mem_nil, or_false] at hc
        rcases hc with h | h <;> subst h <;> norm_num [flatCandle])).2.2.1 rfl
    (by norm_num [flatCandle])

/-! ## The multiplier -/

theorem roundMagnitude_one : roundMagnitude 1 = 1 :=
  roundMagnitude_eval 1 1 0 (2 ^ 52) (by norm_num) (by norm_num) (by norm_num) (by norm_num)

theorem roundDouble_neg_one : roundDouble (-1) = fin (-1) := by
  rw [roundDouble_neg (by norm_num)]
  norm_num [roundMagnitude_one]

theorem roundDouble_sign {q : ℚ} (hq : 0 ≤ q) : JSNum.ge (roundDouble q) (fin 0) = true := by
  rcases roundDouble_nonneg hq with h | ⟨r, h, hr⟩
  · rw [h]; rfl
  · rw [h]; simpa using hr

theorem div_nonneg_js {t v : ℚ} (ht : 0 ≤ t) (hv : 0 < v) :
    JSNum.ge (JSNum.div (fin t) (fin v)) (fin 0) = true := by
  rw [div_fin_int t v hv]
  exact roundDouble_sign (div_nonneg ht hv.le)

theorem multiplierOf_fin (token : TradeRecord) (sellVolume balanceUsd buyVolume : ℚ)
    (hs : token.sellVolume = fin sellVolume) (hb : token.balanceUsd = fin balanceUsd)
    (hv : token.buyVolume = fin buyVolume) :
    multiplierOf token =
      if 0 < buyVolume then JSNum.div (roundDouble (sellVolume + balanceUsd)) (fin buyVolume)
      else fin 0 := by
  unfold multiplierOf
  rw [hs, hb, hv]
  by_cases hpos : 0 < buyVolume
  · simp [orZero, hpos]
  · simp [orZero, hpos]

/-- C9 fails as stated: a record with `sellVolume = -1`, `balanceUsd = 0` and
`buyVolume = 1` has the multiplier `-1`, which is not `>= 0`. -/
theorem multiplier_negative_counterexample :
    multiplierOf (sampleRecord "T" 1 (fin 1) (fin 1) (fin (-1)) (fin 0)) = fin (-1) ∧
    JSNum.ge (multiplierOf (sampleRecord "T" 1 (fin 1) (fin 1) (fin (-1)) (fin 0))) (fin 0) =
      false := by
  have h : multiplierOf (sampleRecord "T" 1 (fin 1) (fin 1) (fin (-1)) (fin 0)) = fin (-1) := by
    rw [multiplierOf_fin _ (-1) 0 1 rfl rfl rfl, if_pos (by norm_num)]
    norm_num [roundDouble_neg_one, div_fin]
  rw [h]
  exact ⟨rfl, by norm_num⟩

/-- C9, amended: for finite volumes the multiplier is `0` unless `buyVolume > 0`, and
then it is the quotient of the computed sum `sellVolume + balanceUsd` by `buyVolume`,
the sum and the quotient each rounded to binary64 (so a sum beyond the largest double is
`+Infinity`, and so is the multiplier).  It is `>= 0` whenever
`sellVolume + balanceUsd >= 0`, and when the computed sum is the non-zero double `t` it is
the double nearest to `t / buyVolume`.  The multiplier is `0` whenever `buyVolume` is a
zero, negative, missing or unparseable (NaN), whatever the other two fields are. -/
theorem multiplier_value (token : TradeRecord) (sellVolume balanceUsd buyVolume : ℚ) :
    (token.sellVolume = fin sellVolume → token.balanceUsd = fin balanceUsd →
      token.buyVolume = fin buyVolume →
      multiplierOf token =
        (if 0 < buyVolume then
          JSNum.div (JSNum.add (fin sellVolume) (fin balanceUsd)) (fin buyVolume)
        else fin 0) ∧
      (0 ≤ sellVolume + balanceUsd → JSNum.ge (multiplierOf token) (fin 0) = true) ∧
      (∀ t : ℚ, 0 < buyVolume → JSNum.add (fin sellVolume) (fin balanceUsd) = fin t →
        t ≠ 0 → multiplierOf token = roundDouble (t / buyVolume)) ∧
      (0 < buyVolume → JSNum.add (fin sellVolume) (fin balanceUsd) = posInf →
        multiplierOf token = posInf)) ∧
    (token.buyVolume = nan ∨ token.buyVolume = fin 0 ∨ token.buyVolume = negZero ∨
        JSNum.lt token.buyVolume (fin 0) = true →
      multiplierOf token = fin 0) := by
  constructor
  · intro hs hb hv
    have hval := multiplierOf_fin token sellVolume balanceUsd buyVolume hs hb hv
    rw [add_fin]
    refine ⟨hval, ?_, ?_, ?_⟩
    · intro hsum
      rw [hval]
      by_cases hpos : 0 < buyVolume
      · rw [if_pos hpos]
        rcases roundDouble_nonneg hsum with h | ⟨r, h, hr⟩
        · rw [h]
          simp [div, ge, le, signedInfinity, hpos.not_lt]
        · rw [h]
          exact div_nonneg_js hr hpos
      · rw [if_neg hpos]
        simp
    · intro t hpos ht ht0
      rw [hval, if_pos hpos, ht, div_fin _ _ ht0 hpos.ne']
    · intro hpos ht
      rw [hval, if_pos hpos, ht]
      simp [div, signedInfinity, hpos.not_lt]
  · intro h
    unfold multiplierOf
    rcases h with h | h | h | h
    · rw [h]; simp [orZero]
    · rw [h]; simp [orZero]
    · rw [h]; simp [orZero]
    · cases hv : token.buyVolume with
      | fin q =>
          rw [hv] at h
          have : ¬ (0 < q) := by
            simp only [lt_fin, decide_eq_true_eq] at h
            exact not_lt.mpr h.le
          simp [orZero, this]
      | negZero => simp [orZero]
      | posInf => rw [hv] at h; simp [lt] at h
      | negInf => simp [orZero, gt, lt]
      | nan => simp [orZero]

/-- C9, amended, on a record that sold for 3 and still holds 1 after buying for 2: the
multiplier is `>= 0`. -/
theorem multiplier_value_witness :
    JSNum.ge (multiplierOf (sampleRecord "T" 1 (fin 1) (fin 2) (fin 3) (fin 1))) (fin 0) =
      true :=
  ((multiplier_value (sampleRecord "T" 1 (fin 1) (fin 2) (fin 3) (fin 1)) 3 1 2).1
    rfl rfl rfl).2.1 (by norm_num)

/-! ## The command parser -/

/-- C10, at the failing input: the chain word `constructor` is not one of the seven
chain names, yet `parseCommand` does not return `null` on
`/score FCMXEqaSGdEHbufTCMBdG9kDd5MvU9tQmWqPn9yXF9qb constructor`: the property read
`CHAIN_MAP['constructor']` finds the member inherited from `Object.prototype`, which is
truthy, and the result carries it as `chainId`.  The same holds for `__proto__`.  On the
two examples of the claim the parser does what the claim says. -/
theorem parseCommand_inherited_chain :
    parseCommand "/score FCMXEqaSGdEHbufTCMBdG9kDd5MvU9tQmWqPn9yXF9qb constructor" =
      some ⟨"FCMXEqaSGdEHbufTCMBdG9kDd5MvU9tQmWqPn9yXF9qb",
        ChainValue.inherited "constructor"⟩ ∧
    parseCommand "/score FCMXEqaSGdEHbufTCMBdG9kDd5MvU9tQmWqPn9yXF9qb __proto__" =
      some ⟨"FCMXEqaSGdEHbufTCMBdG9kDd5MvU9tQmWqPn9yXF9qb",
        ChainValue.inherited "__proto__"⟩ ∧
    parseCommand "/score FCMXEqaSGdEHbufTCMBdG9kDd5MvU9tQmWqPn9yXF9qb sol" =
      some ⟨"FCMXEqaSGdEHbufTCMBdG9kDd5MvU9tQmWqPn9yXF9qb", ChainValue.id 501⟩ ∧
    parseCommand "/score x" = none := by
  refine ⟨by decide, by decide, by decide, by decide⟩

theorem stripBotName_group (botname rest : List Char)
    (hne : botname ≠ []) (hword : ∀ c ∈ botname, isWordChar c = true)
    (hrest : ∀ c, rest.head? = some c → isWordChar c = false) :
    stripBotName (scoreLiteral ++ '@' :: (botname ++ rest)) = scoreLiteral ++ rest := by
  have htake : (botname ++ rest).takeWhile isWordChar = botname := by
    rw [List.takeWhile_append_of_pos hword]
    cases rest with
    | nil => simp
    | cons c cs => simp [List.takeWhile_cons, hrest c rfl]
  have hdrop : (botname ++ rest).dropWhile isWordChar = rest := by
    rw [List.dropWhile_append_of_pos hword]
    cases rest with
    | nil => simp
    | cons c cs => simp [List.dropWhile_cons, hrest c rfl]
  have hlen : 0 < botname.length := List.length_pos.mpr hne
  simp [stripBotName, scoreLiteral, htake, hdrop, hlen]

theorem stripBotName_plain (rest : List Char)
    (hrest : ∀ c, rest.head? = some c → c ≠ '@') :
    stripBotName (scoreLiteral ++ rest) = scoreLiteral ++ rest := by
  cases rest with
  | nil => simp [stripBotName, scoreLiteral]
  | cons c cs =>
      have hc : c ≠ '@' := hrest c rfl
      unfold stripBotName
      simp only [scoreLiteral, List.cons_append, List.nil_append, List.take, List.drop, if_true]
      split
      · rename_i heq
        have heq2 : c :: cs = '@' :: _ := heq
        exact absurd (List.cons.inj heq2).1 hc
      · rfl

/-- C11 fails as stated: `/score@mybot 0xabc eth` parses to `null`, because `0xabc`
is shorter than the 32 characters the address pattern requires; and the bot name is not
always the only thing stripped: with the bot name `bot` and a rest that begins with the
letter `A`, `/score@botA ...` loses `@botA` and parses, while `/scoreA ...` does not. -/
theorem parseCommand_group_counterexample :
    parseCommand "/score@mybot 0xabc eth" = none ∧
    parseCommand ("/score@" ++ "bot" ++ "A FCMXEqaSGdEHbufTCMBdG9kDd5MvU9tQmWqPn9yXF9qb") =
      some ⟨"FCMXEqaSGdEHbufTCMBdG9kDd5MvU9tQmWqPn9yXF9qb", ChainValue.id 501⟩ ∧
    parseCommand ("/score" ++ "A FCMXEqaSGdEHbufTCMBdG9kDd5MvU9tQmWqPn9yXF9qb") = none := by
  refine ⟨by decide, by decide, by decide⟩

/-- C11, amended: for every non-empty bot name made of word characters and every rest
that is empty or begins with a character that is neither a word character nor `@` (white
space, as in a real command), `parseCommand('/score@' + botname + rest)` returns the same
result as `parseCommand('/score' + rest)`.  With a full-length address the group format
parses, `/score@mybot FCMXEqaSGdEHbufTCMBdG9kDd5MvU9tQmWqPn9yXF9qb eth` giving chain
id `1`; `/score@mybot 0xabc eth` gives `null`, as `/score 0xabc eth` does. -/
theorem parseCommand_group_format (botname rest : String)
    (hne : botname.toList ≠ [])
    (hword : ∀ c ∈ botname.toList, isWordChar c = true)
    (hrest : ∀ c, rest.toList.head? = some c → isWordChar c = false ∧ c ≠ '@') :
    parseCommand ("/score@" ++ botname ++ rest) = parseCommand ("/score" ++ rest) ∧
    parseCommand "/score@mybot FCMXEqaSGdEHbufTCMBdG9kDd5MvU9tQmWqPn9yXF9qb eth" =
      some ⟨"FCMXEqaSGdEHbufTCMBdG9kDd5MvU9tQmWqPn9yXF9qb", ChainValue.id 1⟩ ∧
    parseCommand "/score@mybot 0xabc eth" = none ∧
    parseCommand "/score 0xabc eth" = none := by
  refine ⟨?_, by decide, by decide, by decide⟩
  have h1 : ("/score@" ++ botname ++ rest).toList =
      scoreLiteral ++ '@' :: (botname.toList ++ rest.toList) := by
    simp [String.toList, scoreLiteral]
  have h2 : ("/score" ++ rest).toList = scoreLiteral ++ rest.toList := by
    simp [String.toList, scoreLiteral]
  unfold parseCommand
  rw [h1, h2, stripBotName_group _ _ hne hword (fun c hc => (hrest c hc).1),
    stripBotName_plain _ (fun c hc => (hrest c hc).2)]

/-- C11, amended, for the bot name `mybot` followed by a full command. -/
theorem parseCommand_group_format_witness :
    parseCommand ("/score@" ++ "mybot" ++ " FCMXEqaSGdEHbufTCMBdG9kDd5MvU9tQmWqPn9yXF9qb eth") =
      parseCommand ("/score" ++ " FCMXEqaSGdEHbufTCMBdG9kDd5MvU9tQmWqPn9yXF9qb eth") :=
  (parseCommand_group_format "mybot" " FCMXEqaSGdEHbufTCMBdG9kDd5MvU9tQmWqPn9yXF9qb eth"
    (by decide) (by decide)
    (by
      intro c hc
      have hc2 : c = ' ' := by
        have : (some ' ' : Option Char) = some c := hc
        exact (Option.some.inj this).symm
      subst hc2
      decide)).1

/-! ## The multiplier formatter -/

theorem toFixed_nonneg (q : ℚ) (f : Nat) (h0 : 0 ≤ q) (h : q < 10 ^ 21) :
    toFixed (fin q) f = some (fixedPoint q f) := by
  have h1 : ¬ (10 ^ 21 ≤ q) := not_le.mpr h
  have h2 : ¬ (q < 0) := not_lt.mpr h0
  simp [toFixed, h1, h2, abs_of_nonneg h0]

theorem toFixed_neg (q : ℚ) (f : Nat) (h0 : q < 0) (h : -q < 10 ^ 21) :
    toFixed (fin q) f = some ("-" ++ fixedPoint (-q) f) := by
  have h1 : ¬ (10 ^ 21 ≤ -q) := not_le.mpr h
  simp [toFixed, h1, h0, abs_of_neg h0]

theorem toFixed_finite (x : JSNum) (f : Nat) (hfin : x.isFinite = true)
    (h : |x.toRat| < 10 ^ 21) :
    toFixed x f = some ((if x.toRat < 0 then "-" else "") ++ fixedPoint |x.toRat| f) := by
  rcases (isFinite_iff x).mp hfin with hx | hx
  · rw [hx]
    simp only [toRat_fin]
    rw [hx] at h
    simp only [toRat_fin] at h
    simp [toFixed, not_le.mpr h]
  · rw [hx]
    simp [toFixed]

theorem fixedPoint_eval (x : ℚ) (f n : Nat)
    (h1 : (n : ℚ) ≤ x * 10 ^ f + 1 / 2) (h2 : x * 10 ^ f + 1 / 2 < n + 1) :
    fixedPoint x f = fixedDigits n f := by
  have : ⌊x * 10 ^ f + 1 / 2⌋ = (n : Int) := by
    rw [Int.floor_eq_iff]
    exact ⟨by exact_mod_cast h1, by exact_mod_cast h2⟩
  rw [fixedPoint, this, Int.toNat_ofNat]

theorem roundDouble_bounded {q b : ℚ} (hq : |q| ≤ b) (hfit : roundMagnitude b < 2 ^ 1024) :
    (roundDouble q).isFinite = true ∧ |(roundDouble q).toRat| ≤ roundMagnitude b := by
  have hb : 0 ≤ b := le_trans (abs_nonneg q) hq
  rcases lt_trichotomy q 0 with h | h | h
  · have hle : -q ≤ b := by rwa [abs_of_neg h] at hq
    have hm := roundMagnitude_mono (neg_pos.mpr h) hle
    have hn := roundMagnitude_nonneg (neg_pos.mpr h).le
    rw [roundDouble_neg h, if_neg (not_le.mpr (lt_of_le_of_lt hm hfit))]
    by_cases hz : roundMagnitude (-q) = 0
    · rw [if_pos hz]
      exact ⟨rfl, by simpa using roundMagnitude_nonneg hb⟩
    · rw [if_neg hz]
      refine ⟨rfl, ?_⟩
      simp only [toRat_fin, abs_neg, abs_of_nonneg hn]
      exact hm
  · subst h
    rw [roundDouble_zero]
    exact ⟨rfl, by simpa using roundMagnitude_nonneg hb⟩
  · have hle : q ≤ b := by rwa [abs_of_pos h] at hq
    obtain ⟨r, hr, h0, hrb⟩ := roundDouble_upper h hle hfit
    rw [hr]
    exact ⟨rfl, by simpa [abs_of_nonneg h0] using hrb⟩

theorem roundMagnitude_tenPow20 : roundMagnitude (10 ^ 20) = 10 ^ 20 :=
  roundMagnitude_eval (10 ^ 20) (10 ^ 20) 66 6103515625000000 (by norm_num) (by norm_num)
    (by norm_num) (by norm_num)

theorem roundMagnitude_thousand : roundMagnitude 1000 = 1000 :=
  roundMagnitude_eval 1000 1000 9 (1000 * 2 ^ 43) (by norm_num) (by norm_num) (by norm_num)
    (by norm_num)

theorem roundDouble_nonneg_toRat {q : ℚ} (hq : 0 ≤ q) : 0 ≤ (roundDouble q).toRat := by
  rcases roundDouble_nonneg hq with h | ⟨r, h, hr⟩
  · rw [h]; simp
  · rw [h]; simpa using hr

theorem toFixed_quotient (m d b : ℚ) (f : Nat) (hm : 0 < m) (hd : 0 < d) (hle : m / d ≤ b)
    (hfit : roundMagnitude b < 10 ^ 21) :
    toFixed (JSNum.div (fin m) (fin d)) f =
      some (fixedPoint (JSNum.div (fin m) (fin d)).toRat f) := by
  rw [div_fin _ _ hm.ne' hd.ne']
  have hq : 0 < m / d := div_pos hm hd
  have hb := roundDouble_bounded (q := m / d) (b := b) (by rwa [abs_of_pos hq])
    (lt_trans hfit (by norm_num))
  have h0 := roundDouble_nonneg_toRat hq.le
  rw [toFixed_finite _ _ hb.1 (lt_of_le_of_lt hb.2 hfit), if_neg (not_lt.mpr h0),
    abs_of_nonneg h0]
  simp

theorem toFixed_loss (m : ℚ) (h0 : 0 ≤ m) (h1 : m < 1) :
    toFixed (JSNum.sub (fin m) (fin 1)) 2 =
      some ((if (JSNum.sub (fin m) (fin 1)).toRat < 0 then "-" else "") ++
        fixedPoint |(JSNum.sub (fin m) (fin 1)).toRat| 2) := by
  rw [sub_fin]
  have hb := roundDouble_bounded (q := m - 1) (b := 1)
    (by rw [abs_of_neg (by linarith)]; linarith)
    (by rw [roundMagnitude_one]; norm_num)
  rw [roundMagnitude_one] at hb
  exact toFixed_finite _ _ hb.1 (lt_of_le_of_lt hb.2 (by norm_num))

theorem formatMultiplier_nonneg (m : ℚ) (h0 : 0 ≤ m) (hbig : m ≤ 10 ^ 26) :
    formatMultiplier (fin m) = some (
      if m < 1 then
        (if (JSNum.sub (fin m) (fin 1)).toRat < 0 then "-" else "") ++
          fixedPoint |(JSNum.sub (fin m) (fin 1)).toRat| 2 ++ "x"
      else if m < 10 then fixedPoint m 2 ++ "x"
      else if m < 100 then fixedPoint m 1 ++ "x"
      else if m < 1000 then fixedPoint m 0 ++ "x"
      else if m < 1000000 then fixedPoint (JSNum.div (fin m) (fin 1000)).toRat 1 ++ "Kx"
      else fixedPoint (JSNum.div (fin m) (fin 1000000)).toRat 1 ++ "Mx") := by
  have hneg : ¬ (m < 0) := not_lt.mpr h0
  have h26 : (10 : ℚ) ^ 26 < 10 ^ 27 := by norm_num
  unfold formatMultiplier
  simp only [lt_fin, decide_eq_true_eq, hneg, if_false, ge_fin]
  by_cases c1 : m < 1
  · simp only [c1, if_true, toFixed_loss m h0 c1, Option.map_some', String.append_assoc]
  · have hm1 : 1 ≤ m := not_lt.mp c1
    by_cases c10 : m < 10
    · have e1 : ¬ (1000000 ≤ m) := by linarith
      have e2 : ¬ (1000 ≤ m) := by linarith
      have e3 : ¬ (100 ≤ m) := by linarith
      have e4 : ¬ (10 ≤ m) := by linarith
      simp only [c1, c10, e1, e2, e3, e4, if_true, if_false,
        toFixed_nonneg m 2 h0 (by linarith), Option.map_some']
    · by_cases c100 : m < 100
      · have e1 : ¬ (1000000 ≤ m) := by linarith
        have e2 : ¬ (1000 ≤ m) := by linarith
        have e3 : ¬ (100 ≤ m) := by linarith
        have e4 : 10 ≤ m := not_lt.mp c10
        simp only [c1, c10, c100, e1, e2, e3, e4, if_true, if_false,
          toFixed_nonneg m 1 h0 (by linarith), Option.map_some']
      · by_cases c1000 : m < 1000
        · have e1 : ¬ (1000000 ≤ m) := by linarith
          have e2 : ¬ (1000 ≤ m) := by linarith
          have e3 : 100 ≤ m := not_lt.mp c100
          simp only [c1, c10, c100, c1000, e1, e2, e3, if_true, if_false,
            toFixed_nonneg m 0 h0 (by linarith), Option.map_some']
        · have e2 : 1000 ≤ m := not_lt.mp c1000
          by_cases c6 : m < 1000000
          · have e1 : ¬ (1000000 ≤ m) := by linarith
            have hk := toFixed_quotient m 1000 1000 1 (by linarith) (by norm_num)
              (by rw [div_le_iff₀ (by norm_num)]; linarith)
              (by rw [roundMagnitude_thousand]; norm_num)
            simp only [c1, c10, c100, c1000, c6, e1, e2, if_true, if_false, hk,
              Option.map_some']
          · have e1 : 1000000 ≤ m := not_lt.mp c6
            have hk := toFixed_quotient m 1000000 (10 ^ 20) 1 (by linarith) (by norm_num)
              (by rw [div_le_iff₀ (by norm_num)]; linarith)
              (by rw [roundMagnitude_tenPow20]; norm_num)
            simp only [c1, c10, c100, c1000, c6, e1, if_true, if_false, hk,
              Option.map_some']

theorem roundDouble_thirtyTwoHundredths :
    roundDouble (32 / 100) = fin (5764607523034235 / 2 ^ 54) :=
  roundDouble_eval (32 / 100) _ (-2) 5764607523034235 (by norm_num) (by norm_num)
    (by norm_num) (by norm_num [abs_lt]) (by norm_num)

theorem loss_thirtyTwoHundredths :
    JSNum.sub (fin (5764607523034235 / 2 ^ 54)) (fin 1) = fin (-(6124895493223874 / 2 ^ 53)) := by
  have h : roundMagnitude (-(5764607523034235 / 2 ^ 54 - 1)) = 6124895493223874 / 2 ^ 53 := by
    have h1 : ((2 : ℚ) ^ (-1 : Int)) ≤ -(5764607523034235 / 2 ^ 54 - 1) := by norm_num
    have h2 : -(5764607523034235 / 2 ^ 54 - 1) < ((2 : ℚ) ^ ((-1 : Int) + 1)) := by norm_num
    have h3 : -(5764607523034235 / 2 ^ 54 - 1) / (2 : ℚ) ^ max ((-1 : Int) - 52) (-1074) =
        ((6124895493223874 : Int) : ℚ) + 1 / 2 := by norm_num
    rw [roundMagnitude_eq_of_tie _ (-1) 6124895493223874 h1 h2 h3 (by norm_num)]
    norm_num
  rw [sub_fin, roundDouble_neg (by norm_num), h]
  norm_num

theorem roundDouble_threeHalves : roundDouble (3 / 2) = fin (3 / 2) :=
  roundDouble_eval (3 / 2) _ 0 (3 * 2 ^ 51) (by norm_num) (by norm_num) (by norm_num)
    (by norm_num) (by norm_num)

theorem roundDouble_twentyNineTwentieths :
    roundDouble (29 / 20) = fin (6530219459687219 / 2 ^ 52) :=
  roundDouble_eval (29 / 20) _ 0 6530219459687219 (by norm_num) (by norm_num) (by norm_num)
    (by norm_num [abs_lt]) (by norm_num)

theorem formatMultiplier_examples :
    formatMultiplier (roundDouble (32 / 100)) = some "-0.68x" ∧
    formatMultiplier (fin 2.5) = some "2.50x" ∧
    formatMultiplier (fin 1500) = some "1.5Kx" ∧
    formatMultiplier (fin 250) = some "250x" ∧
    formatMultiplier (fin 250.75) = some "251x" ∧
    formatMultiplier (fin 1450) = some "1.4Kx" := by
  refine ⟨?_, ?_, ?_, ?_, ?_, ?_⟩
  · rw [roundDouble_thirtyTwoHundredths,
      formatMultiplier_nonneg _ (by norm_num) (by norm_num), if_pos (by norm_num),
      loss_thirtyTwoHundredths]
    simp only [toRat_fin]
    rw [if_pos (by norm_num), abs_of_neg (by norm_num),
      fixedPoint_eval _ 2 68 (by norm_num) (by norm_num)]
    decide
  · rw [formatMultiplier_nonneg _ (by norm_num) (by norm_num), if_neg (by norm_num),
      if_pos (by norm_num), fixedPoint_eval _ 2 250 (by norm_num) (by norm_num)]
    decide
  · rw [formatMultiplier_nonneg _ (by norm_num) (by norm_num), if_neg (by norm_num),
      if_neg (by norm_num), if_neg (by norm_num), if_neg (by norm_num), if_pos (by norm_num),
      div_fin _ _ (by norm_num) (by norm_num)]
    norm_num only []
    rw [roundDouble_threeHalves]
    simp only [toRat_fin]
    rw [fixedPoint_eval _ 1 15 (by norm_num) (by norm_num)]
    decide
  · rw [formatMultiplier_nonneg _ (by norm_num) (by norm_num), if_neg (by norm_num),
      if_neg (by norm_num), if_neg (by norm_num), if_pos (by norm_num),
      fixedPoint_eval _ 0 250 (by norm_num) (by norm_num)]
    decide
  · rw [formatMultiplier_nonneg _ (by norm_num) (by norm_num), if_neg (by norm_num),
      if_neg (by norm_num), if_neg (by norm_num), if_pos (by norm_num),
      fixedPoint_eval _ 0 251 (by norm_num) (by norm_num)]
    decide
  · rw [formatMultiplier_nonneg _ (by norm_num) (by norm_num), if_neg (by norm_num),
      if_neg (by norm_num), if_neg (by norm_num), if_neg (by norm_num), if_pos (by norm_num),
      div_fin _ _ (by norm_num) (by norm_num)]
    norm_num only []
    rw [roundDouble_twentyNineTwentieths]
    simp only [toRat_fin]
    rw [fixedPoint_eval _ 1 14 (by norm_num) (by norm_num)]
    decide

theorem formatMultiplier_negZero : formatMultiplier negZero = some "-1.00x" := by
  have h : JSNum.sub negZero (fin 1) = fin (-1) := by
    simp [sub, neg, add, roundDouble_neg_one]
  have h2 : toFixed (fin (-1)) 2 = some "-1.00" := by
    rw [toFixed_neg _ _ (by norm_num) (by norm_num),
      fixedPoint_eval _ 2 100 (by norm_num) (by norm_num)]
    decide
  have hlt0 : JSNum.lt negZero (fin 0) = false := by simp [lt]
  have hlt1 : JSNum.lt negZero (fin 1) = true := by simp [lt]
  unfold formatMultiplier
  simp only [hlt0, hlt1, if_true, Bool.false_eq_true, if_false, h, h2, Option.map_some']
  decide

/-- C12 fails as stated: between 100 and 1000 the multiplier is not truncated to an
integer.  `formatMultiplier(250.75)` is `251x`, where truncation would give `250x`:
`toFixed(0)` rounds to the nearest integer. -/
theorem formatMultiplier_truncation_counterexample :
    formatMultiplier (fin 250.75) = some "251x" ∧
    ⌊(250.75 : ℚ)⌋ = 250 := by
  refine ⟨formatMultiplier_examples.2.2.2.2.1, ?_⟩
  rw [Int.floor_eq_iff]
  norm_num

/-- C12, amended: for every multiplier `0 <= m <= 10^26`, `formatMultiplier(m)` is, each
followed by `x`: for `m < 1`, the loss `m - 1` as computed in binary64, with two
decimals and its minus sign; for `1 <= m < 10`, `m` with two decimals; for
`10 <= m < 100`, `m` with one decimal; for `100 <= m < 1000`, `m` rounded to the nearest
integer, halves upwards (not truncated); for `1000 <= m < 1,000,000`, the quotient
`m / 1000` as computed in binary64, with one decimal and suffix `K`; for
`m >= 1,000,000`, the computed quotient `m / 1,000,000` with one decimal and suffix `M`.
Every rendering is of the exact value of the double it renders and rounds to the
nearest value of its precision, so the computed loss and quotients are the doubles
nearest to `m - 1`, `m / 1000` and `m / 1,000,000`.  In particular the double 0.32 gives
`-0.68x`, 2.5 gives `2.50x`, 1500 gives `1.5Kx`, 250 gives `250x`, 250.75 gives `251x`,
and 1450, whose computed quotient lies just below 1.45, gives `1.4Kx`. -/
theorem formatMultiplier_bands (m : ℚ) (h0 : 0 ≤ m) (hbig : m ≤ 10 ^ 26) :
    formatMultiplier (fin m) = some (
      if m < 1 then
        (if (JSNum.sub (fin m) (fin 1)).toRat < 0 then "-" else "") ++
          fixedPoint |(JSNum.sub (fin m) (fin 1)).toRat| 2 ++ "x"
      else if m < 10 then fixedPoint m 2 ++ "x"
      else if m < 100 then fixedPoint m 1 ++ "x"
      else if m < 1000 then fixedPoint m 0 ++ "x"
      else if m < 1000000 then fixedPoint (JSNum.div (fin m) (fin 1000)).toRat 1 ++ "Kx"
      else fixedPoint (JSNum.div (fin m) (fin 1000000)).toRat 1 ++ "Mx") ∧
    JSNum.sub (fin m) (fin 1) = roundDouble (m - 1) ∧
    (1 ≤ m → JSNum.div (fin m) (fin 1000) = roundDouble (m / 1000) ∧
      JSNum.div (fin m) (fin 1000000) = roundDouble (m / 1000000)) ∧
    (100 ≤ m → m < 1000 →
      formatMultiplier (fin m) = some (Nat.repr ⌊m + 1 / 2⌋.toNat ++ "x")) ∧
    formatMultiplier (roundDouble (32 / 100)) = some "-0.68x" ∧
    formatMultiplier (fin 2.5) = some "2.50x" ∧
    formatMultiplier (fin 1500) = some "1.5Kx" ∧
    formatMultiplier (fin 250) = some "250x" ∧
    formatMultiplier (fin 250.75) = some "251x" ∧
    formatMultiplier (fin 1450) = some "1.4Kx" := by
  have hb := formatMultiplier_nonneg m h0 hbig
  refine ⟨hb, sub_fin m 1, ?_, ?_, formatMultiplier_examples⟩
  · intro h1
    have hm : m ≠ 0 := by linarith
    exact ⟨div_fin _ _ hm (by norm_num), div_fin _ _ hm (by norm_num)⟩
  · intro h100 h1000
    rw [hb, if_neg (by linarith), if_neg (by linarith), if_neg (by linarith), if_pos h1000]
    simp [fixedPoint, fixedDigits, Nat.repr, List.asString]

/-- C12, amended, at the multiplier 2.5: two decimals, `2.50x`. -/
theorem formatMultiplier_bands_witness :
    formatMultiplier (fin 2.5) = some "2.50x" := by
  have h := (formatMultiplier_bands 2.5 (by norm_num) (by norm_num)).1
  rw [h, if_neg (by norm_num), if_pos (by norm_num),
    fixedPoint_eval _ 2 250 (by norm_num) (by norm_num)]
  decide

/-! ## Examples on doubles that are not exact decimals -/

theorem roundDouble_77 :
    roundDouble (77 / 10000) = fin (8877495585472722 / 2 ^ 60) :=
  roundDouble_eval (77 / 10000) _ (-8) 8877495585472722 (by norm_num) (by norm_num)
    (by norm_num) (by norm_num [abs_lt]) (by norm_num)

theorem roundDouble_7 :
    roundDouble (7 / 1000) = fin (8070450532247929 / 2 ^ 60) :=
  roundDouble_eval (7 / 1000) _ (-8) 8070450532247929 (by norm_num) (by norm_num)
    (by norm_num) (by norm_num [abs_lt]) (by norm_num)

theorem pct_77_7 :
    pct (fin (8877495585472722 / 2 ^ 60)) (fin (8070450532247929 / 2 ^ 60))
      (fin (8070450532247929 / 2 ^ 60)) = fin 10 := by
  have hC : roundDouble (8877495585472722 / 2 ^ 60 - 8070450532247929 / 2 ^ 60) =
      fin (6456360425798344 / 2 ^ 63) :=
    roundDouble_eval _ _ (-11) 6456360425798344 (by norm_num) (by norm_num)
      (by norm_num) (by norm_num [abs_lt]) (by norm_num)
  have hD : roundDouble (6456360425798344 / 2 ^ 63 / (8070450532247929 / 2 ^ 60)) =
      fin (7205759403792794 / 2 ^ 56) :=
    roundDouble_eval _ _ (-4) 7205759403792794 (by norm_num) (by norm_num)
      (by norm_num) (by norm_num [abs_lt]) (by norm_num)
  have hE : roundDouble (7205759403792794 / 2 ^ 56 * 100) = fin 10 :=
    roundDouble_eval _ _ 3 5629499534213120 (by norm_num) (by norm_num)
      (by norm_num) (by norm_num [abs_lt]) (by norm_num)
  unfold pct hundred
  rw [sub_fin, hC, div_fin _ _ (by norm_num) (by norm_num), hD, mul_fin _ _ (by norm_num), hE]

/-- The doubles 0.0077 and 0.007: the rise is computed as exactly 10, which is not
`> 10`, so the label is `flat`. -/
theorem classifyBefore_double_example :
    pct (roundDouble (77 / 10000)) (roundDouble (7 / 1000)) (roundDouble (7 / 1000)) = fin 10 ∧
    classifyBefore (roundDouble (77 / 10000)) (roundDouble (7 / 1000))
      (roundDouble (77 / 10000)) = flat := by
  rw [roundDouble_77, roundDouble_7]
  refine ⟨pct_77_7, classifyBefore_eq_flat_of_pct _ _ _ ⟨?_, pct_self _⟩⟩
  rw [pct_77_7]
  simp

theorem roundDouble_56 :
    roundDouble (56 / 100) = fin (5044031582654956 / 2 ^ 53) :=
  roundDouble_eval (56 / 100) _ (-1) 5044031582654956 (by norm_num) (by norm_num)
    (by norm_num) (by norm_num [abs_lt]) (by norm_num)

theorem roundDouble_056 :
    roundDouble (56 / 1000) = fin (8070450532247929 / 2 ^ 57) :=
  roundDouble_eval (56 / 1000) _ (-5) 8070450532247929 (by norm_num) (by norm_num)
    (by norm_num) (by norm_num [abs_lt]) (by norm_num)

theorem pct_56_056 :
    pct (fin (5044031582654956 / 2 ^ 53)) (fin (8070450532247929 / 2 ^ 57))
      (fin (5044031582654956 / 2 ^ 53)) = fin (6333186975989759 / 2 ^ 46) := by
  have hC : roundDouble (5044031582654956 / 2 ^ 53 - 8070450532247929 / 2 ^ 57) =
      fin (4539628424389460 / 2 ^ 53) :=
    roundDouble_eval _ _ (-1) 4539628424389460 (by norm_num) (by norm_num)
      (by norm_num) (by norm_num [abs_lt]) (by norm_num)
  have hD : roundDouble (4539628424389460 / 2 ^ 53 / (5044031582654956 / 2 ^ 53)) =
      fin (8106479329266892 / 2 ^ 53) :=
    roundDouble_eval _ _ (-1) 8106479329266892 (by norm_num) (by norm_num)
      (by norm_num) (by norm_num [abs_lt]) (by norm_num)
  have hE : roundDouble (8106479329266892 / 2 ^ 53 * 100) =
      fin (6333186975989759 / 2 ^ 46) :=
    roundDouble_eval _ _ 6 6333186975989759 (by norm_num) (by norm_num)
      (by norm_num) (by norm_num [abs_lt]) (by norm_num)
  unfold pct hundred
  rw [sub_fin, hC, div_fin _ _ (by norm_num) (by norm_num), hD, mul_fin _ _ (by norm_num), hE]

/-- The doubles 0.56 and 0.056: a peak of 0.56 and a latest close of 0.056 give a
computed percentage just below 90 (89.99999999999999), so the token is not rugged. -/
theorem isRugged_double_example :
    pct (roundDouble (56 / 100)) (roundDouble (56 / 1000)) (roundDouble (56 / 100)) =
      fin (6333186975989759 / 2 ^ 46) ∧
    isRuggedOf [⟨1, roundDouble (56 / 100), roundDouble (56 / 100), roundDouble (56 / 1000),
      roundDouble (56 / 1000)⟩] = false := by
  rw [roundDouble_56, roundDouble_056]
  refine ⟨pct_56_056, ?_⟩
  have h := isRuggedOf_iff
    [⟨1, fin (5044031582654956 / 2 ^ 53), fin (5044031582654956 / 2 ^ 53),
      fin (8070450532247929 / 2 ^ 57), fin (8070450532247929 / 2 ^ 57)⟩]
    ⟨1, fin (5044031582654956 / 2 ^ 53), fin (5044031582654956 / 2 ^ 53),
      fin (8070450532247929 / 2 ^ 57), fin (8070450532247929 / 2 ^ 57)⟩
    (5044031582654956 / 2 ^ 53)
    (by intro c hc; rw [List.mem_singleton] at hc; subst hc; exact ⟨rfl, rfl⟩)
    (by simp)
    (by intro c hc; rw [List.mem_singleton] at hc; subst hc; simp)
    ⟨_, List.mem_singleton.mpr rfl, rfl⟩
    (by intro c hc; rw [List.mem_singleton] at hc; subst hc; simp)
  rw [← Bool.not_eq_true, h]
  simp only [pct_56_056]
  norm_num

theorem roundDouble_09 :
    roundDouble (9 / 10) = fin (8106479329266893 / 2 ^ 53) :=
  roundDouble_eval (9 / 10) _ (-1) 8106479329266893 (by norm_num) (by norm_num)
    (by norm_num) (by norm_num [abs_lt]) (by norm_num)

theorem roundDouble_01 :
    roundDouble (1 / 10) = fin (7205759403792794 / 2 ^ 56) :=
  roundDouble_eval (1 / 10) _ (-4) 7205759403792794 (by norm_num) (by norm_num)
    (by norm_num) (by norm_num [abs_lt]) (by norm_num)

theorem distance_09 :
    JSNum.abs (JSNum.sub (fin (8106479329266893 / 2 ^ 53)) (fin (1 / 2))) =
      fin (7205759403792794 / 2 ^ 54) := by
  have h : roundDouble (8106479329266893 / 2 ^ 53 - 1 / 2) = fin (7205759403792794 / 2 ^ 54) :=
    roundDouble_eval _ _ (-2) 7205759403792794 (by norm_num) (by norm_num)
      (by norm_num) (by norm_num [abs_lt]) (by norm_num)
  rw [sub_fin, h, abs_fin]
  norm_num

theorem distance_01 :
    JSNum.abs (JSNum.sub (fin (7205759403792794 / 2 ^ 56)) (fin (1 / 2))) =
      fin (7205759403792794 / 2 ^ 54) := by
  have h : roundMagnitude (-(7205759403792794 / 2 ^ 56 - 1 / 2)) =
      7205759403792794 / 2 ^ 54 := by
    have h1 : ((2 : ℚ) ^ (-2 : Int)) ≤ -(7205759403792794 / 2 ^ 56 - 1 / 2) := by norm_num
    have h2 : -(7205759403792794 / 2 ^ 56 - 1 / 2) < ((2 : ℚ) ^ ((-2 : Int) + 1)) := by
      norm_num
    have h3 : -(7205759403792794 / 2 ^ 56 - 1 / 2) / (2 : ℚ) ^ max ((-2 : Int) - 52) (-1074) =
        ((7205759403792793 : Int) : ℚ) + 1 / 2 := by norm_num
    unfold roundMagnitude
    rw [ulpExponent_of_bounds _ (-2) h1 h2, roundHalfEven_tie _ 7205759403792793 h3,
      if_neg (by norm_num)]
    norm_num
  rw [sub_fin, roundDouble_neg (by norm_num), h]
  norm_num

/-- The doubles 0.9 and 0.1 around an average buy price of 0.5: both computed distances
are the double 0.4, so the candle met first after the sort, the one with the later
timestamp, is kept, although the exact distance of the other close is smaller. -/
theorem closestCandle_double_example :
    closestCandle (fin (1 / 2))
      [flatCandle 1 (roundDouble (1 / 10)), flatCandle 2 (roundDouble (9 / 10))] =
      some (flatCandle 2 (roundDouble (9 / 10))) ∧
    |(roundDouble (1 / 10)).toRat - 1 / 2| < |(roundDouble (9 / 10)).toRat - 1 / 2| := by
  rw [roundDouble_09, roundDouble_01]
  constructor
  · have hsort : sortCandles [flatCandle 1 (fin (7205759403792794 / 2 ^ 56)),
        flatCandle 2 (fin (8106479329266893 / 2 ^ 53))] =
        [flatCandle 2 (fin (8106479329266893 / 2 ^ 53)),
          flatCandle 1 (fin (7205759403792794 / 2 ^ 56))] := by
      simp [sortCandles, List.insertionSort, List.orderedInsert, flatCandle]
    unfold closestCandle
    rw [hsort]
    simp only [List.foldl_cons, List.foldl_nil, closerCandle, flatCandle, distance_09,
      distance_01]
    simp
  · simp only [toRat_fin]
    rw [abs_of_neg (by norm_num), abs_of_pos (by norm_num)]
    norm_num

end WalletScorer
